import Mathlib

/-!
Shallow embedding of two slices of a code editor:
  * the auto-indentation engine `vs/editor/common/languages/autoIndent.ts`
  * the hover controller `ContentHoverController`

External collaborators (tokenizer, language-configuration registry, widget,
DOM) are represented as abstract data carried in structures; the functions
of the two source files are translated line by line.  JavaScript string
primitives (`substr`, `substring`, `replace` with a string pattern) are
reproduced with their clamping semantics.
-/

namespace VSCodeSpec

/-! ### JavaScript string primitives -/

/-- Clamp an integer index into `[0, n]` as `String.prototype.substring` does. -/
def intClamp (n : Nat) (x : Int) : Nat :=
  if x ≤ 0 then 0 else min x.toNat n

/-- `s.substring(a, b)`: clamp both indices into range and swap them if needed. -/
def jsSubstring (s : String) (a b : Int) : String :=
  let a2 := intClamp s.length a
  let b2 := intClamp s.length b
  ⟨(s.data.drop (min a2 b2)).take (max a2 b2 - min a2 b2)⟩

/-- `s.substring(a)` (no second argument): from the clamped index to the end. -/
def jsSubstringFrom (s : String) (a : Int) : String :=
  ⟨s.data.drop (intClamp s.length a)⟩

/-- The effective begin index of `String.prototype.substr`:
a negative start counts from the end of the string. -/
def jsSubstrBegin (n : Nat) (start : Int) : Nat :=
  if start < 0 then ((n : Int) + start).toNat else min start.toNat n

/-- `s.substr(start, len)`. -/
def jsSubstr (s : String) (start len : Int) : String :=
  let b := jsSubstrBegin s.length start
  ⟨(s.data.drop b).take (min len.toNat (s.length - b))⟩

/-- `s.substr(start)` (no length argument): to the end of the string. -/
def jsSubstrFrom (s : String) (start : Int) : String :=
  ⟨s.data.drop (jsSubstrBegin s.length start)⟩

def strTake (s : String) (n : Nat) : String := ⟨s.data.take n⟩

def strDrop (s : String) (n : Nat) : String := ⟨s.data.drop n⟩

def strSlice (s : String) (a b : Nat) : String := ⟨(s.data.drop a).take (b - a)⟩

/-- Index of the first occurrence of `pat` in `l` (`String.prototype.indexOf`);
the empty pattern occurs at index 0. -/
def firstIndexOf (l pat : List Char) : Option Nat :=
  if pat.isPrefixOf l then some 0
  else
    match l with
    | [] => none
    | _ :: tl => (firstIndexOf tl pat).map (· + 1)

/-- `s.replace(pat, '_')` with a string pattern: replace only the first
occurrence of `pat` by an underscore. -/
def jsReplaceFirst (s pat : String) : String :=
  match firstIndexOf s.data pat.data with
  | none => s
  | some i => ⟨s.data.take i ++ ['_'] ++ s.data.drop (i + pat.length)⟩

/-- `strings.getLeadingWhitespace`: longest prefix of spaces and tabs. -/
def getLeadingWhitespace (s : String) : String :=
  ⟨s.data.takeWhile (fun c => c == ' ' || c == '\t')⟩

/-- A character matched by the JavaScript regex class `\s` (the subset that can
occur in a line of a text model). -/
def isJsWhitespace (c : Char) : Bool :=
  c == ' ' || c == '\t' || c == '\n' || c == '\r' || c == Char.ofNat 11 || c == Char.ofNat 12

/-- `/^\s+$/.test s` -/
def regexAllWhitespacePlus (s : String) : Bool :=
  !s.data.isEmpty && s.data.all isJsWhitespace

/-- `/^\s*$/.test s` -/
def regexAllWhitespaceStar (s : String) : Bool :=
  s.data.all isJsWhitespace

/-! ### Tokens, models and language configuration -/

inductive StandardTokenType
  | other
  | comment
  | strTok
  | regEx
deriving DecidableEq

structure TokenInfo where
  startOffset : Nat
  endOffset : Nat
  tokenType : StandardTokenType
  languageId : String
deriving DecidableEq

/-- The view of `LineTokens` used by the indentation engine:
the line's text plus the token list with offsets, standard type and language. -/
structure LineTokens where
  content : String
  toks : List TokenInfo
deriving DecidableEq

/-- `lineTokens.getLanguageId(0)`: language of the first token. -/
def LineTokens.getLanguageId0 (lt : LineTokens) : String :=
  match lt.toks with
  | [] => ""
  | t :: _ => t.languageId

/-- The view of `ScopedLineTokens` used here: offset of the region in the
line, the language of the region and `getLineContent()` of the region. -/
structure ScopedLineTokens where
  firstCharOffset : Nat
  languageId : String
  content : String
deriving DecidableEq

/-- Modelled from the spec: `IndentRulesSupport`
(`vs/editor/common/languages/supports/indentRules`) is not part of the two
source files; its four pattern tests are abstract predicates on line text. -/
structure IndentRulesSupport where
  shouldIncrease : String → Bool
  shouldDecrease : String → Bool
  shouldIndentNextLine : String → Bool
  shouldIgnore : String → Bool

def IndentConsts.INCREASE_MASK : Nat := 1
def IndentConsts.DECREASE_MASK : Nat := 2
def IndentConsts.INDENT_NEXTLINE_MASK : Nat := 4
def IndentConsts.UNINDENT_MASK : Nat := 8

/-- Modelled from the spec: the bitmask combining the four pattern tests,
as produced by `IndentRulesSupport.getIndentMetadata`. -/
def IndentRulesSupport.getIndentMetadata (irs : IndentRulesSupport) (text : String) : Nat :=
  (if irs.shouldIncrease text then IndentConsts.INCREASE_MASK else 0)
  + (if irs.shouldDecrease text then IndentConsts.DECREASE_MASK else 0)
  + (if irs.shouldIndentNextLine text then IndentConsts.INDENT_NEXTLINE_MASK else 0)
  + (if irs.shouldIgnore text then IndentConsts.UNINDENT_MASK else 0)

inductive IndentAction
  | noAction
  | indent
  | indentOutdent
  | outdent
deriving DecidableEq

/-- Result of `onEnter`; `appendText`/`removeText` are optional in the source
and tested for truthiness, so the empty string / zero mean "absent". -/
structure EnterAction where
  indentAction : IndentAction
  appendText : String
  removeText : Nat
deriving DecidableEq

/-- One `RichEditBracket`: its open and close texts (each a list of strings,
which is why the source calls `.flat()`). -/
structure BracketPair where
  openB : List String
  closeB : List String
deriving DecidableEq

structure RichEditBrackets where
  brackets : List BracketPair
deriving DecidableEq

/-- Modelled from the spec: the resolved language configuration, holding the
pieces the two source files read (`indentRulesSupport`, `brackets`, `onEnter`). -/
structure LanguageConfig where
  indentRulesSupport : Option IndentRulesSupport
  brackets : Option RichEditBrackets
  onEnter : Nat → String → String → String → Option EnterAction

structure LangConfigService where
  getLanguageConfiguration : String → LanguageConfig

structure IIndentConverter where
  shiftIndent : String → String
  unshiftIndent : String → String

structure IVirtualModel where
  getLineTokens : Nat → LineTokens
  getLanguageId : String
  getLanguageIdAtPosition : Nat → Nat → String
  getLineContent : Nat → String

structure ERange where
  startLineNumber : Nat
  startColumn : Nat
  endLineNumber : Nat
  endColumn : Nat
deriving DecidableEq, Inhabited

def ERange.isEmpty (r : ERange) : Bool :=
  r.startLineNumber == r.endLineNumber && r.startColumn == r.endColumn

/-- The slice of `ITextModel` the indentation engine reads.  Scoped line
tokens (`createScopedLineTokens` / `getScopedLineTokens`, external helpers)
are provided per position. -/
structure ITextModel where
  getLineTokens : Nat → LineTokens
  getLanguageId : String
  getLanguageIdAtPosition : Nat → Nat → String
  getLineContent : Nat → String
  getLineCount : Nat
  getScopedLineTokens : Nat → Nat → ScopedLineTokens

def ITextModel.toVirtual (m : ITextModel) : IVirtualModel :=
  ⟨m.getLineTokens, m.getLanguageId, m.getLanguageIdAtPosition, m.getLineContent⟩

def EditorAutoIndentStrategy.Full : Nat := 4

/-! ### getStrippedLineForLineAndTokens -/

def bracketsOpenList : Option RichEditBrackets → Option (List String)
  | none => none
  | some br => some ((br.brackets.map (fun bp => bp.openB)).flatten)

def bracketsCloseList : Option RichEditBrackets → Option (List String)
  | none => none
  | some br => some ((br.brackets.map (fun bp => bp.closeB)).flatten)

/-- Replace the first occurrence of every configured open-bracket text, then of
every configured close-bracket text, by an underscore (the `forEach` loops of
the source). -/
def replaceBracketsInToken (brackets2 : Option RichEditBrackets) (seg : String) : String :=
  let m1 :=
    match bracketsOpenList brackets2 with
    | none => seg
    | some l => l.foldl (fun s b => jsReplaceFirst s b) seg
  match bracketsCloseList brackets2 with
  | none => m1
  | some l => l.foldl (fun s b => jsReplaceFirst s b) m1

/-- One iteration of the token loop of `getStrippedLineForLineAndTokens`.
The accumulator is the pair `(res, offset)`.  Note the source's order of
operations: in the Comment branch `res` is rebuilt before `offset` is updated,
while in the String/RegEx branch `offset` is updated first and the rebuild of
`res` uses the already-updated offset. -/
def strippedStep (brackets2 : Option RichEditBrackets) (line : String)
    (acc : String × Int) (t : TokenInfo) : String × Int :=
  match t.tokenType with
  | StandardTokenType.comment =>
      let res := jsSubstr acc.1 0 (acc.2 + (t.startOffset : Int))
                  ++ jsSubstrFrom acc.1 (acc.2 + (t.endOffset : Int))
      (res, acc.2 + (t.startOffset : Int) - (t.endOffset : Int))
  | StandardTokenType.strTok =>
      let seg := jsSubstring line (t.startOffset : Int) (t.endOffset : Int)
      let m2 := replaceBracketsInToken brackets2 seg
      let off2 := acc.2 + (seg.length : Int) - (m2.length : Int)
      let res := jsSubstring acc.1 0 (off2 + (t.startOffset : Int))
                  ++ m2 ++ jsSubstringFrom acc.1 (off2 + (t.endOffset : Int))
      (res, off2)
  | StandardTokenType.regEx =>
      let seg := jsSubstring line (t.startOffset : Int) (t.endOffset : Int)
      let m2 := replaceBracketsInToken brackets2 seg
      let off2 := acc.2 + (seg.length : Int) - (m2.length : Int)
      let res := jsSubstring acc.1 0 (off2 + (t.startOffset : Int))
                  ++ m2 ++ jsSubstringFrom acc.1 (off2 + (t.endOffset : Int))
      (res, off2)
  | StandardTokenType.other => acc

def getStrippedLineForLineAndTokens (lcs : LangConfigService) (languageId : String)
    (line : String) (tokens : LineTokens) : String :=
  let brackets2 := (lcs.getLanguageConfiguration languageId).brackets
  (tokens.toks.foldl (strippedStep brackets2 line) (line, 0)).1

def getStrippedLine (lcs : LangConfigService) (m : IVirtualModel) (lineNumber : Nat) : String :=
  getStrippedLineForLineAndTokens lcs m.getLanguageId (m.getLineContent lineNumber)
    (m.getLineTokens lineNumber)

/-! Claim-level description of the stripped line: per token, a comment
contributes nothing, a string/regex token contributes its text with the first
occurrence of each configured bracket replaced, any other token contributes
its text unchanged; text after the last token is kept. -/

def strippedSegment (brackets2 : Option RichEditBrackets) (line : String) (t : TokenInfo) : String :=
  match t.tokenType with
  | StandardTokenType.comment => ⟨[]⟩
  | StandardTokenType.strTok => replaceBracketsInToken brackets2 (strSlice line t.startOffset t.endOffset)
  | StandardTokenType.regEx => replaceBracketsInToken brackets2 (strSlice line t.startOffset t.endOffset)
  | StandardTokenType.other => strSlice line t.startOffset t.endOffset

def lastEndFrom : Nat → List TokenInfo → Nat
  | k, [] => k
  | _, t :: ts => lastEndFrom t.endOffset ts

def strippedLineSpec (brackets2 : Option RichEditBrackets) (line : String)
    (toks : List TokenInfo) : String :=
  ⟨((toks.map (strippedSegment brackets2 line)).map (fun s => s.data)).flatten
    ++ line.data.drop (lastEndFrom 0 toks)⟩

/-- Well-formed token list: contiguous from position `k`, ends within `len`
(the shape `LineTokens` guarantees in the host editor). -/
def tokensOkB (len : Nat) : Nat → List TokenInfo → Bool
  | _, [] => true
  | k, t :: ts =>
      (t.startOffset == k) && (decide (k ≤ t.endOffset)) && (decide (t.endOffset ≤ len))
        && tokensOkB len t.endOffset ts

def singleCharBrackets : Option RichEditBrackets → Bool
  | none => true
  | some br =>
      br.brackets.all (fun bp =>
        bp.openB.all (fun s => s.length == 1) && bp.closeB.all (fun s => s.length == 1))

/-! ### getPrecedingValidLine -/

def getPrecedingValidLineAux (m : IVirtualModel) (irs : IndentRulesSupport)
    (languageId : String) : Nat → Int → Int
  | 0, _ => -1
  | k + 1, res =>
      if m.getLanguageIdAtPosition (k + 1) 0 ≠ languageId then res
      else
        let text := m.getLineContent (k + 1)
        let tokens := m.getLineTokens (k + 1)
        let entirelyInComment := tokens.toks.all (fun t => t.tokenType == StandardTokenType.comment)
        let entirelyInString := tokens.toks.all (fun t => t.tokenType == StandardTokenType.strTok)
        let entirelyInRegex := tokens.toks.all (fun t => t.tokenType == StandardTokenType.regEx)
        if irs.shouldIgnore text || regexAllWhitespacePlus text || text == ""
            || entirelyInComment || entirelyInString || entirelyInRegex then
          getPrecedingValidLineAux m irs languageId k ((k + 1 : Nat) : Int)
        else ((k + 1 : Nat) : Int)

/-- `getPrecedingValidLine`.  When the backwards loop runs past line 1 the
source falls through to `return -1` (dropping `resultLineNumber`), which the
`0` case of the auxiliary loop reproduces. -/
def getPrecedingValidLine (m : IVirtualModel) (lineNumber : Nat) (irs : IndentRulesSupport) : Int :=
  let languageId := m.getLanguageIdAtPosition lineNumber 0
  if lineNumber > 1 then getPrecedingValidLineAux m irs languageId (lineNumber - 1) (-1)
  else -1

/-! ### getInheritIndentForLine -/

structure InheritIndentResult where
  indentation : String
  action : Option IndentAction
  line : Option Nat
deriving DecidableEq

/-- The "first non-blank line" loop: true iff every line from `lineNumber - 1`
down to 1 is empty (the loop reaches line 1 and returns). -/
def blankLoop (m : IVirtualModel) : Nat → Bool
  | 0 => false
  | p + 1 =>
      if m.getLineContent (p + 1) ≠ "" then false
      else if p = 0 then true
      else blankLoop m p

/-- The `stopLine` loop under the indent-next-line metadata check. -/
def stopLineLoop1 (lcs : LangConfigService) (m : IVirtualModel) (irs : IndentRulesSupport) : Nat → Nat
  | 0 => 0
  | i + 1 =>
      if irs.shouldIndentNextLine (getStrippedLine lcs m (i + 1)) then stopLineLoop1 lcs m irs i
      else i + 1

/-- The inner `stopLine` loop of the `honorIntentialIndent = false` branch.
The source reads line `i` (not `j`) in the loop body, so the tested line is
fixed throughout. -/
def innerStopLoop (lcs : LangConfigService) (m : IVirtualModel) (irs : IndentRulesSupport)
    (iFixed : Nat) : Nat → Nat
  | 0 => 0
  | j + 1 =>
      if irs.shouldIndentNextLine (getStrippedLine lcs m iFixed) then
        innerStopLoop lcs m irs iFixed j
      else j + 1

/-- The search loop of the `honorIntentialIndent = false` branch, including the
fallback to line 1 after the loop. -/
def dishonorLoop (lcs : LangConfigService) (m : IVirtualModel) (irs : IndentRulesSupport) :
    Nat → InheritIndentResult
  | 0 => ⟨getLeadingWhitespace (m.getLineContent 1), none, some 1⟩
  | i + 1 =>
      let lineContent := getStrippedLine lcs m (i + 1)
      if irs.shouldIncrease lineContent then
        ⟨getLeadingWhitespace lineContent, some IndentAction.indent, some (i + 1)⟩
      else if irs.shouldIndentNextLine lineContent then
        let stopLine := innerStopLoop lcs m irs (i + 1) i
        ⟨getLeadingWhitespace (getStrippedLine lcs m (stopLine + 1)), none, some (stopLine + 1)⟩
      else if irs.shouldDecrease lineContent then
        ⟨getLeadingWhitespace lineContent, none, some (i + 1)⟩
      else dishonorLoop lcs m irs i

def getInheritIndentForLine (autoIndent : Nat) (m : IVirtualModel) (lineNumber : Nat)
    (honorIntentialIndent : Bool) (lcs : LangConfigService) : Option InheritIndentResult :=
  if autoIndent < EditorAutoIndentStrategy.Full then none
  else
    match (lcs.getLanguageConfiguration m.getLanguageId).indentRulesSupport with
    | none => none
    | some irs =>
      if lineNumber ≤ 1 then some ⟨"", none, none⟩
      else if blankLoop m (lineNumber - 1) then some ⟨"", none, none⟩
      else
        let pre := getPrecedingValidLine m lineNumber irs
        if pre < 0 then none
        else if pre < 1 then some ⟨"", none, none⟩
        else
          let preN := pre.toNat
          let preContent := getStrippedLine lcs m preN
          if irs.shouldIncrease preContent || irs.shouldIndentNextLine preContent then
            some ⟨getLeadingWhitespace preContent, some IndentAction.indent, some preN⟩
          else if irs.shouldDecrease preContent then
            some ⟨getLeadingWhitespace preContent, none, some preN⟩
          else if preN = 1 then
            some ⟨getLeadingWhitespace (m.getLineContent preN), none, some preN⟩
          else
            let previousLine := preN - 1
            let md := irs.getIndentMetadata (m.getLineContent previousLine)
            if (md &&& (IndentConsts.INCREASE_MASK ||| IndentConsts.DECREASE_MASK)) = 0
                ∧ (md &&& IndentConsts.INDENT_NEXTLINE_MASK) ≠ 0 then
              let stopLine := stopLineLoop1 lcs m irs (previousLine - 1)
              some ⟨getLeadingWhitespace (m.getLineContent (stopLine + 1)), none, some (stopLine + 1)⟩
            else if honorIntentialIndent then
              some ⟨getLeadingWhitespace (m.getLineContent preN), none, some preN⟩
            else
              some (dishonorLoop lcs m irs preN)

/-! ### getGoodIndentForLine -/

/-- The in-between whitespace check: stripped lines `inheritLine` up to
`lineNumber - 2` must all be whitespace-only. -/
def betweenAllWhitespace (lcs : LangConfigService) (m : IVirtualModel)
    (inheritLine lineNumber : Nat) : Bool :=
  (List.range' inheritLine (lineNumber - 1 - inheritLine)).all
    (fun i => regexAllWhitespaceStar (getStrippedLine lcs m i))

def getGoodIndentForLine (autoIndent : Nat) (vm : IVirtualModel) (languageId : String)
    (lineNumber : Nat) (conv : IIndentConverter) (lcs : LangConfigService) : Option String :=
  if autoIndent < EditorAutoIndentStrategy.Full then none
  else
    match (lcs.getLanguageConfiguration languageId).indentRulesSupport with
    | none => none
    | some irs =>
      match getInheritIndentForLine autoIndent vm lineNumber true lcs with
      | none => none
      | some indent =>
        let lineContent := getStrippedLine lcs vm lineNumber
        let viaEnter : Option String :=
          match indent.line with
          | none => none
          | some inheritLine =>
            if betweenAllWhitespace lcs vm inheritLine lineNumber then
              let inheritedLineContent := getStrippedLine lcs vm inheritLine
              match (lcs.getLanguageConfiguration languageId).onEnter autoIndent ("")
                  inheritedLineContent ("") with
              | none => none
              | some er =>
                let ind0 := getLeadingWhitespace inheritedLineContent
                let ind1 :=
                  if er.removeText ≠ 0 then
                    jsSubstring ind0 0 ((ind0.length : Int) - (er.removeText : Int))
                  else ind0
                let ind2 :=
                  if er.indentAction = IndentAction.indent
                      ∨ er.indentAction = IndentAction.indentOutdent then conv.shiftIndent ind1
                  else if er.indentAction = IndentAction.outdent then conv.unshiftIndent ind1
                  else ind1
                let ind3 := if irs.shouldDecrease lineContent then conv.unshiftIndent ind2 else ind2
                let ind4 := if er.appendText ≠ "" then ind3 ++ er.appendText else ind3
                some (getLeadingWhitespace ind4)
            else none
        match viaEnter with
        | some r => some r
        | none =>
          if irs.shouldDecrease lineContent then
            if indent.action = some IndentAction.indent then some indent.indentation
            else some (conv.unshiftIndent indent.indentation)
          else
            if indent.action = some IndentAction.indent then some (conv.shiftIndent indent.indentation)
            else some indent.indentation

/-! ### getIndentForEnter -/

structure EnterIndent where
  beforeEnter : String
  afterEnter : String
deriving DecidableEq

def getIndentForEnter (autoIndent : Nat) (model : ITextModel) (range : ERange)
    (conv : IIndentConverter) (lcs : LangConfigService) : Option EnterIndent :=
  if autoIndent < EditorAutoIndentStrategy.Full then none
  else
    let lineTokens := model.getLineTokens range.startLineNumber
    let scopedLT := model.getScopedLineTokens range.startLineNumber range.startColumn
    let scopedLineText := scopedLT.content
    let embedded := scopedLT.firstCharOffset > 0 ∧ lineTokens.getLanguageId0 ≠ scopedLT.languageId
    let beforeEnterText :=
      if embedded then
        jsSubstr scopedLineText 0 ((range.startColumn : Int) - 1 - (scopedLT.firstCharOffset : Int))
      else jsSubstring lineTokens.content 0 ((range.startColumn : Int) - 1)
    let afterEnterText :=
      if range.isEmpty then
        jsSubstrFrom scopedLineText ((range.startColumn : Int) - 1 - (scopedLT.firstCharOffset : Int))
      else
        let endScoped := model.getScopedLineTokens range.endLineNumber range.endColumn
        jsSubstrFrom endScoped.content ((range.endColumn : Int) - 1 - (scopedLT.firstCharOffset : Int))
    match (lcs.getLanguageConfiguration scopedLT.languageId).indentRulesSupport with
    | none => none
    | some irs =>
      let beforeEnterIndent := getLeadingWhitespace beforeEnterText
      let virtualModel : IVirtualModel :=
        { getLineTokens := model.getLineTokens
          getLanguageId := model.getLanguageId
          getLanguageIdAtPosition := model.getLanguageIdAtPosition
          getLineContent := fun n =>
            if n = range.startLineNumber then beforeEnterText else model.getLineContent n }
      let currentLineIndent := getLeadingWhitespace lineTokens.content
      match getInheritIndentForLine autoIndent virtualModel (range.startLineNumber + 1) true lcs with
      | none =>
        let before := if embedded then currentLineIndent else beforeEnterIndent
        some ⟨before, before⟩
      | some act =>
        let a0 := if embedded then currentLineIndent else act.indentation
        let a1 := if act.action = some IndentAction.indent then conv.shiftIndent a0 else a0
        let a2 := if irs.shouldDecrease afterEnterText then conv.unshiftIndent a1 else a1
        some ⟨if embedded then currentLineIndent else beforeEnterIndent, a2⟩

/-! ### getIndentActionForType -/

def typeBeforeText (model : ITextModel) (range : ERange) : String :=
  let scopedLT := model.getScopedLineTokens range.startLineNumber range.startColumn
  jsSubstr scopedLT.content 0 ((range.startColumn : Int) - 1 - (scopedLT.firstCharOffset : Int))

def typeAfterText (model : ITextModel) (range : ERange) : String :=
  let scopedLT := model.getScopedLineTokens range.startLineNumber range.startColumn
  if range.isEmpty then
    jsSubstrFrom scopedLT.content ((range.startColumn : Int) - 1 - (scopedLT.firstCharOffset : Int))
  else
    let endScoped := model.getScopedLineTokens range.endLineNumber range.endColumn
    jsSubstrFrom endScoped.content ((range.endColumn : Int) - 1 - (scopedLT.firstCharOffset : Int))

/-- The text of the language region at the cursor without the typed character. -/
def typeFullText (model : ITextModel) (range : ERange) : String :=
  typeBeforeText model range ++ typeAfterText model range

/-- The text of the language region at the cursor once `ch` is inserted at the cursor (replacing the
selection when the range is not empty). -/
def typeFullTextWithCharacter (model : ITextModel) (range : ERange) (ch : String) : String :=
  typeBeforeText model range ++ ch ++ typeAfterText model range

def getIndentActionForType (autoIndent : Nat) (model : ITextModel) (range : ERange)
    (ch : String) (conv : IIndentConverter) (lcs : LangConfigService) : Option String :=
  if autoIndent < EditorAutoIndentStrategy.Full then none
  else
    let scopedLT := model.getScopedLineTokens range.startLineNumber range.startColumn
    if scopedLT.firstCharOffset ≠ 0 then none
    else
      match (lcs.getLanguageConfiguration scopedLT.languageId).indentRulesSupport with
      | none => none
      | some irs =>
        if irs.shouldDecrease (typeFullText model range) = false
            ∧ irs.shouldDecrease (typeFullTextWithCharacter model range ch) = true then
          match getInheritIndentForLine autoIndent model.toVirtual range.startLineNumber false lcs with
          | none => none
          | some r =>
            if r.action ≠ some IndentAction.indent then some (conv.unshiftIndent r.indentation)
            else some r.indentation
        else none

/-! ### getIndentMetadata -/

def getIndentMetadata (model : ITextModel) (lineNumber : Nat) (lcs : LangConfigService) :
    Option Nat :=
  match (lcs.getLanguageConfiguration model.getLanguageId).indentRulesSupport with
  | none => none
  | some irs =>
    if lineNumber < 1 ∨ lineNumber > model.getLineCount then none
    else some (irs.getIndentMetadata (model.getLineContent lineNumber))

/-! ### Hover controller (`ContentHoverController`)

The controller's mutable fields (`_currentResult`, `_computer.*`, widget
visibility, `_renderedParts`) form an explicit state; the per-editor
collaborators (participants, editor options, widget geometry, the external
`Range.plusRange`) form a configuration of oracles.  The `HoverOperation`
lifecycle is modelled by a count of fetches in flight together with a trace
of `cancel` / `start` events emitted in program order. -/

structure EPosition where
  lineNumber : Nat
  column : Nat
deriving DecidableEq, Inhabited

/-- A hover anchor; `equals` is structural equality, `priority` and the
`canAdoptVisibleHover` behaviour (as the set of `data` keys of anchors whose
visible hover this anchor can adopt) abstract the external anchor classes. -/
structure HoverAnchor where
  priority : Int
  data : Nat
  range : ERange
  canAdoptData : List Nat
deriving DecidableEq, Inhabited

/-- An `IHoverPart`: its owner participant (by key), range and flags.
`validAnchorData` abstracts `isValidForHoverAnchor`. -/
structure Part where
  ownerId : Nat
  range : ERange
  forceShowAtRange : Bool
  isBeforeContent : Bool
  validAnchorData : List Nat
deriving DecidableEq, Inhabited

structure HoverResult where
  anchor : HoverAnchor
  messages : List Part
  isComplete : Bool
deriving DecidableEq

/-- Modelled from the spec: `HoverResult.filter` (contentHoverTypes, not in
the source slice) keeps the messages that still apply to the new anchor. -/
def HoverResult.filterResult (r : HoverResult) (a : HoverAnchor) : HoverResult :=
  ⟨a, r.messages.filter (fun m => m.validAnchorData.contains a.data), r.isComplete⟩

inductive MouseTarget
  | contentText (range : ERange)
  | contentEmpty (range : ERange) (isAfterLines : Bool) (horizontalDistanceToText : Option Int)
  | otherTarget
deriving DecidableEq

structure MouseEvent where
  target : MouseTarget
  posx : Int
  posy : Int
deriving DecidableEq

/-- A hover participant: identity key (object reference), `hoverOrdinal` and
the optional `suggestHoverAnchor` method. -/
structure Participant where
  id : Nat
  hoverOrdinal : Int
  suggestHoverAnchor : MouseEvent → Option HoverAnchor

/-- The per-editor oracles read by the controller. -/
structure HoverConfig where
  participants : List Participant
  sticky : Bool
  isMouseGettingCloser : Int → Int → Bool
  epsilon : Int
  statusBarHasContent : Bool
  startColumnBoundary : Nat
  plusRange : ERange → ERange → ERange

inductive RenderedPart
  | part (participantId : Nat) (ordinal : Int) (hp : Part)
  | statusBar
deriving DecidableEq

inductive HoverEv
  | cancel
  | start (a : HoverAnchor)
deriving DecidableEq

structure HoverState where
  widgetPosition : Option EPosition
  widgetResizing : Bool
  currentResult : Option HoverResult
  computerAnchor : Option HoverAnchor
  computerShouldFocus : Bool
  computerSource : Nat
  computerInsist : Bool
  opsInFlight : Nat
  renderedParts : List RenderedPart
deriving DecidableEq

def hoverVisibleB (s : HoverState) : Bool :=
  s.widgetPosition.isSome && s.currentResult.isSome

/-! #### computeHoverRanges -/

structure HoverRangesResult where
  showAtPosition : EPosition
  showAtSecondaryPosition : EPosition
  highlightRange : ERange
deriving DecidableEq

/-- One iteration of the message loop of `computeHoverRanges`; the accumulator
is `(renderStartColumn, highlightRange, forceShowAtRange)`. -/
def chrStep (plusRange : ERange → ERange → ERange) (anchorLineNumber scb : Nat)
    (acc : Nat × ERange × Option ERange) (msg : Part) : Nat × ERange × Option ERange :=
  (if msg.range.startLineNumber = anchorLineNumber ∧ msg.range.endLineNumber = anchorLineNumber
     then max (min acc.1 msg.range.startColumn) scb
   else acc.1,
   plusRange acc.2.1 msg.range,
   if msg.forceShowAtRange then some msg.range else acc.2.2)

/-- `ContentHoverController.computeHoverRanges`.  `plusRange` is the external
`Range.plusRange`, `scb` the start-column boundary computed through the view
model when the editor has one (1 otherwise). -/
def computeHoverRanges (plusRange : ERange → ERange → ERange) (scb : Nat)
    (anchorRange : ERange) (messages : List Part) : HoverRangesResult :=
  let anchorLineNumber := anchorRange.startLineNumber
  let fin := messages.foldl (chrStep plusRange anchorLineNumber scb)
    (anchorRange.startColumn, (messages.headD default).range, none)
  let showAtPosition :=
    match fin.2.2 with
    | some r => (⟨r.startLineNumber, r.startColumn⟩ : EPosition)
    | none => ⟨anchorLineNumber, anchorRange.startColumn⟩
  let showAtSecondaryPosition :=
    match fin.2.2 with
    | some r => (⟨r.startLineNumber, r.startColumn⟩ : EPosition)
    | none => ⟨anchorLineNumber, fin.1⟩
  ⟨showAtPosition, showAtSecondaryPosition, fin.2.1⟩

/-! #### Rendering -/

/-- `_renderHoverPartsWithContext`: for each participant in list order, render
its hover parts (those whose `owner` is that participant). -/
def renderHoverPartsWithContext (ps : List Participant) (hoverParts : List Part) :
    List RenderedPart :=
  (ps.map (fun p =>
    (hoverParts.filter (fun m => m.ownerId == p.id)).map
      (fun hp => RenderedPart.part p.id p.hoverOrdinal hp))).flatten

/-- `_renderHoverPartsInFragment`: participant parts followed by the status
bar when it has content. -/
def renderHoverPartsInFragment (ps : List Participant) (hoverParts : List Part)
    (statusBarHasContent : Bool) : List RenderedPart :=
  renderHoverPartsWithContext ps hoverParts
    ++ (if statusBarHasContent then [RenderedPart.statusBar] else [])

/-- `_renderHoverParts`: record the rendered parts and, when the fragment has
children, show the widget at the computed position. -/
def renderHoverParts (cfg : HoverConfig) (s : HoverState) (anchor : HoverAnchor)
    (hoverParts : List Part) : HoverState :=
  let rendered := renderHoverPartsInFragment cfg.participants hoverParts cfg.statusBarHasContent
  let s2 := { s with renderedParts := rendered }
  if rendered.isEmpty then s2
  else
    let pos := (computeHoverRanges cfg.plusRange cfg.startColumnBoundary anchor.range
      hoverParts).showAtPosition
    { s2 with widgetPosition := some pos }

/-! #### State transitions -/

def setCurrentResult (cfg : HoverConfig) (s : HoverState) (r? : Option HoverResult) : HoverState :=
  if s.currentResult = r? then s
  else
    let r2 : Option HoverResult :=
      match r? with
      | some r => if r.messages.isEmpty then none else some r
      | none => none
    let s2 := { s with currentResult := r2 }
    match r2 with
    | some r => renderHoverParts cfg s2 r.anchor r.messages
    | none => { s2 with widgetPosition := none }

def withResult (cfg : HoverConfig) (s : HoverState) (r : HoverResult) : HoverState :=
  if s.widgetPosition.isSome
      && (match s.currentResult with | some c => c.isComplete | none => false) then
    if r.isComplete = false then s
    else if s.computerInsist = true ∧ r.messages = [] then s
    else setCurrentResult cfg s (some r)
  else setCurrentResult cfg s (some r)

structure OpOutcome where
  state : HoverState
  trace : List HoverEv
deriving DecidableEq

/-- `_startHoverOperationIfNecessary`: a no-op when the computation anchor
already equals the requested one; otherwise cancel the in-flight operation,
update the computer, and start a new operation. -/
def startHoverOperationIfNecessary (s : HoverState) (anchor : HoverAnchor)
    (_mode source : Nat) (focus insist : Bool) : OpOutcome :=
  if (match s.computerAnchor with | some ca => decide (ca = anchor) | none => false) then ⟨s, []⟩
  else
    let s1 := { s with opsInFlight := 0 }
    let s2 := { s1 with computerAnchor := some anchor, computerShouldFocus := focus,
                        computerSource := source, computerInsist := insist }
    ⟨{ s2 with opsInFlight := s2.opsInFlight + 1 }, [HoverEv.cancel, HoverEv.start anchor]⟩

/-- `hide()`. -/
def hideHover (cfg : HoverConfig) (s : HoverState) : OpOutcome :=
  let s1 := { s with computerAnchor := none }
  let s2 := { s1 with opsInFlight := 0 }
  ⟨setCurrentResult cfg s2 none, [HoverEv.cancel]⟩

/-- `canAdoptVisibleHover` of the new anchor, applied to the previous anchor
and the widget position (the position is ignored by the abstraction). -/
def canAdoptVisibleHover (a other : HoverAnchor) (_pos : EPosition) : Bool :=
  a.canAdoptData.contains other.data

structure ShowOutcome where
  res : Bool
  state : HoverState
  trace : List HoverEv
deriving DecidableEq

def startShowingOrUpdateHover (cfg : HoverConfig) (s : HoverState)
    (anchor? : Option HoverAnchor) (mode source : Nat) (focus : Bool)
    (mouseEvent? : Option MouseEvent) : ShowOutcome :=
  match s.widgetPosition, s.currentResult with
  | some wpos, some cur =>
      let isGettingCloser : Bool :=
        cfg.sticky && (match mouseEvent? with
          | some ev => cfg.isMouseGettingCloser ev.posx ev.posy
          | none => false)
      if isGettingCloser then
        match anchor? with
        | some a =>
            let o := startHoverOperationIfNecessary s a mode source focus true
            ⟨true, o.state, o.trace⟩
        | none => ⟨true, s, []⟩
      else
        match anchor? with
        | none => ⟨false, setCurrentResult cfg s none, []⟩
        | some a =>
            if cur.anchor = a then ⟨true, s, []⟩
            else if !(canAdoptVisibleHover a cur.anchor wpos) then
              let s1 := setCurrentResult cfg s none
              let o := startHoverOperationIfNecessary s1 a mode source focus false
              ⟨true, o.state, o.trace⟩
            else
              let s1 := setCurrentResult cfg s (some (HoverResult.filterResult cur a))
              let o := startHoverOperationIfNecessary s1 a mode source focus false
              ⟨true, o.state, o.trace⟩
  | _, _ =>
      match anchor? with
      | some a =>
          let o := startHoverOperationIfNecessary s a mode source focus false
          ⟨true, o.state, o.trace⟩
      | none => ⟨false, s, []⟩

def mkRangeAnchor (r : ERange) : HoverAnchor := ⟨0, 0, r, []⟩

/-- Anchor candidates of `showsOrWillShow`: one per participant that suggests
one, then the range anchor from the mouse target. -/
def gatherAnchorCandidates (cfg : HoverConfig) (ev : MouseEvent) : List HoverAnchor :=
  let c1 := cfg.participants.filterMap (fun p => p.suggestHoverAnchor ev)
  let c2 : List HoverAnchor :=
    match ev.target with
    | MouseTarget.contentText r => [mkRangeAnchor r]
    | MouseTarget.contentEmpty r isAfterLines dist =>
        if !isAfterLines
            && (match dist with | some d => decide (d < cfg.epsilon) | none => false) then
          [mkRangeAnchor r]
        else []
    | MouseTarget.otherTarget => []
  c1 ++ c2

/-- The descending-priority sort `(a, b) => b.priority - a.priority`. -/
def sortAnchorsDesc (l : List HoverAnchor) : List HoverAnchor :=
  List.insertionSort (fun a b => b.priority ≤ a.priority) l

def hoverStartModeDelayed : Nat := 0
def hoverStartSourceMouse : Nat := 0

def showsOrWillShow (cfg : HoverConfig) (s : HoverState) (ev : MouseEvent) : ShowOutcome :=
  if s.widgetResizing then ⟨true, s, []⟩
  else
    let cands := gatherAnchorCandidates cfg ev
    if cands.isEmpty then
      startShowingOrUpdateHover cfg s none hoverStartModeDelayed hoverStartSourceMouse false (some ev)
    else
      startShowingOrUpdateHover cfg s
        (some ((sortAnchorsDesc cands).headD (mkRangeAnchor default)))
        hoverStartModeDelayed hoverStartSourceMouse false (some ev)

/-- The constructor's participant sort
`(p1, p2) => p1.hoverOrdinal - p2.hoverOrdinal` (a stable ascending sort). -/
def sortParticipants (ps : List Participant) : List Participant :=
  List.insertionSort (fun p q => p.hoverOrdinal ≤ q.hoverOrdinal) ps

def rpPid : RenderedPart → Nat
  | RenderedPart.part pid _ _ => pid
  | RenderedPart.statusBar => 0

def rpOrdinal : RenderedPart → Int
  | RenderedPart.part _ o _ => o
  | RenderedPart.statusBar => 0

/-- The rendered list is a concatenation of blocks, each block rendered by a
single participant, and distinct blocks come from distinct participants: the
parts of one participant are contiguous. -/
def GroupedByPid (l : List RenderedPart) : Prop :=
  ∃ blocks : List (List RenderedPart),
    l = blocks.flatten
      ∧ (∀ b ∈ blocks, ∀ x ∈ b, ∀ y ∈ b, rpPid x = rpPid y)
      ∧ List.Pairwise (fun b c => ∀ x ∈ b, ∀ y ∈ c, rpPid x ≠ rpPid y) blocks

/-! ### Concrete instances used by the witnesses -/

def irsW : IndentRulesSupport :=
  { shouldIncrease := fun _ => false
    shouldDecrease := fun s => s == "\x7d"
    shouldIndentNextLine := fun _ => false
    shouldIgnore := fun _ => false }

def lcsW : LangConfigService := ⟨fun _ => ⟨some irsW, none, fun _ _ _ _ => none⟩⟩

def modelW : ITextModel :=
  { getLineTokens := fun _ => ⟨(""), []⟩
    getLanguageId := "lang"
    getLanguageIdAtPosition := fun _ _ => "lang"
    getLineContent := fun _ => ""
    getLineCount := 1
    getScopedLineTokens := fun _ _ => ⟨0, "lang", ""⟩ }

def convW : IIndentConverter := ⟨fun s => s, fun s => s⟩

def rangeW : ERange := ⟨1, 1, 1, 1⟩

def cfgW : HoverConfig :=
  { participants := []
    sticky := false
    isMouseGettingCloser := fun _ _ => false
    epsilon := 2
    statusBarHasContent := false
    startColumnBoundary := 1
    plusRange := fun a _ => a }

def anchorW : HoverAnchor := ⟨0, 5, ⟨1, 1, 1, 2⟩, []⟩

def stateW : HoverState :=
  { widgetPosition := none
    widgetResizing := false
    currentResult := none
    computerAnchor := none
    computerShouldFocus := false
    computerSource := 0
    computerInsist := false
    opsInFlight := 1
    renderedParts := [] }

def resultCompleteW : HoverResult := ⟨anchorW, [⟨1, ⟨1, 1, 1, 2⟩, false, false, [5]⟩], true⟩

def resultPartialW : HoverResult := ⟨anchorW, [⟨1, ⟨1, 1, 1, 2⟩, false, false, [5]⟩], false⟩

def stateVisW : HoverState :=
  { widgetPosition := some ⟨1, 1⟩
    widgetResizing := false
    currentResult := some resultCompleteW
    computerAnchor := some anchorW
    computerShouldFocus := false
    computerSource := 0
    computerInsist := false
    opsInFlight := 0
    renderedParts := [] }

def msgsW : List Part :=
  [⟨1, ⟨1, 2, 1, 3⟩, false, false, []⟩, ⟨2, ⟨2, 1, 2, 4⟩, true, false, []⟩]

def participantBlock (parts : List Part) (p : Participant) : List RenderedPart :=
  (parts.filter (fun m => m.ownerId == p.id)).map (fun hp => RenderedPart.part p.id p.hoverOrdinal hp)

def participantW1 : Participant := ⟨1, 2, fun _ => none⟩
def participantW2 : Participant := ⟨2, 1, fun _ => none⟩

def evW : MouseEvent := ⟨MouseTarget.contentText ⟨1, 1, 1, 2⟩, 0, 0⟩

def c10line : String := "xab)de"

def c10toks : List TokenInfo := [⟨0, 3, StandardTokenType.strTok, "L"⟩]

def c10lcs : LangConfigService :=
  ⟨fun _ => ⟨none, some ⟨[⟨[], [("ab")]⟩]⟩, fun _ _ _ _ => none⟩⟩

def lcsSingleW : LangConfigService :=
  ⟨fun _ => ⟨none, some ⟨[⟨[("(")], [(")")]⟩]⟩, fun _ _ _ _ => none⟩⟩

def toksSingleW : List TokenInfo :=
  [⟨0, 1, StandardTokenType.other, "L"⟩, ⟨1, 4, StandardTokenType.strTok, "L"⟩,
    ⟨4, 5, StandardTokenType.other, "L"⟩]

/-! ### Helper lemmas -/

theorem take_min_length {α : Type} (l : List α) (n : Nat) :
    l.take (min n l.length) = l.take n := by
  rcases Nat.le_total n l.length with h | h
  · rw [Nat.min_eq_left h]
  · rw [Nat.min_eq_right h, List.take_of_length_le h, List.take_of_length_le (le_refl _)]

theorem drop_min_length {α : Type} (l : List α) (n : Nat) :
    l.drop (min n l.length) = l.drop n := by
  rcases Nat.le_total n l.length with h | h
  · rw [Nat.min_eq_left h]
  · rw [Nat.min_eq_right h, List.drop_eq_nil_of_le h, List.drop_eq_nil_of_le (le_refl _)]

theorem string_length_data (s : String) : s.length = s.data.length := rfl

theorem intClamp_natcast (n : Nat) (k : Nat) : intClamp n (k : Int) = min k n := by
  unfold intClamp
  rcases Nat.eq_zero_or_pos k with h | h
  · subst h; simp
  · rw [if_neg (by omega), Int.toNat_natCast]

theorem jsSubstring_zero_natcast (s : String) (n : Nat) :
    jsSubstring s 0 (n : Int) = strTake s n := by
  unfold jsSubstring strTake
  rw [show (0 : Int) = ((0 : Nat) : Int) from rfl, intClamp_natcast, intClamp_natcast]
  simp only [Nat.zero_min, Nat.min_zero, Nat.zero_max, Nat.max_zero, Nat.sub_zero,
    List.drop_zero]
  rw [string_length_data s, take_min_length]

theorem jsSubstringFrom_natcast (s : String) (n : Nat) :
    jsSubstringFrom s (n : Int) = strDrop s n := by
  unfold jsSubstringFrom strDrop
  rw [intClamp_natcast, string_length_data s, drop_min_length]

theorem jsSubstr_zero_natcast (s : String) (n : Nat) :
    jsSubstr s 0 (n : Int) = strTake s n := by
  unfold jsSubstr jsSubstrBegin strTake
  rw [if_neg (by omega)]
  simp only [Int.toNat_zero, Nat.zero_min, Int.toNat_natCast, List.drop_zero, Nat.sub_zero]
  rw [string_length_data s, take_min_length]

theorem jsSubstrFrom_natcast (s : String) (n : Nat) :
    jsSubstrFrom s (n : Int) = strDrop s n := by
  unfold jsSubstrFrom jsSubstrBegin strDrop
  rw [if_neg (by omega), Int.toNat_natCast, string_length_data s, drop_min_length]

/-- `s.substring(0, c - 1)` agrees with taking the first `c - 1` characters,
for a 1-based column `c`. -/
theorem jsSubstring_zero_sub_one (s : String) (c : Nat) :
    jsSubstring s 0 ((c : Int) - 1) = strTake s (c - 1) := by
  rcases Nat.eq_zero_or_pos c with h | h
  · subst h
    unfold jsSubstring intClamp strTake
    norm_num
  · have : ((c : Int) - 1) = ((c - 1 : Nat) : Int) := by omega
    rw [this, jsSubstring_zero_natcast]

/-! ### C8 -/

/-- C8: every exported indentation entry point that takes an autoIndent
strategy — getInheritIndentForLine, getGoodIndentForLine, getIndentForEnter
and getIndentActionForType — returns null whenever autoIndent is below
EditorAutoIndentStrategy.Full, regardless of the model contents, line number,
range, or typed character. -/
theorem C8_autoIndentGuard (autoIndent : Nat) (m : IVirtualModel) (model : ITextModel)
    (languageId : String) (lineNumber : Nat) (honor : Bool) (range : ERange) (ch : String)
    (conv : IIndentConverter) (lcs : LangConfigService)
    (h : autoIndent < EditorAutoIndentStrategy.Full) :
    getInheritIndentForLine autoIndent m lineNumber honor lcs = none
    ∧ getGoodIndentForLine autoIndent m languageId lineNumber conv lcs = none
    ∧ getIndentForEnter autoIndent model range conv lcs = none
    ∧ getIndentActionForType autoIndent model range ch conv lcs = none := by
  refine ⟨?_, ?_, ?_, ?_⟩
  · unfold getInheritIndentForLine; rw [if_pos h]
  · unfold getGoodIndentForLine; rw [if_pos h]
  · unfold getIndentForEnter; rw [if_pos h]
  · unfold getIndentActionForType; rw [if_pos h]

theorem C8_autoIndentGuard_witness :
    getInheritIndentForLine 3 modelW.toVirtual 1 true lcsW = none
    ∧ getGoodIndentForLine 3 modelW.toVirtual ("lang") 1 convW lcsW = none
    ∧ getIndentForEnter 3 modelW rangeW convW lcsW = none
    ∧ getIndentActionForType 3 modelW rangeW ("\x7d") convW lcsW = none :=
  C8_autoIndentGuard 3 modelW.toVirtual modelW ("lang") 1 true rangeW ("\x7d") convW lcsW
    (by decide)

/-! ### C9 -/

/-- C9: getIndentMetadata returns null if and only if the model's language has
no indentRulesSupport or the line number is out of range (less than 1 or
greater than the model's line count); otherwise it returns the indent metadata
computed from that line's content. -/
theorem getIndentMetadata_of_some (model : ITextModel) (lineNumber : Nat)
    (lcs : LangConfigService) (irs : IndentRulesSupport)
    (h : (lcs.getLanguageConfiguration model.getLanguageId).indentRulesSupport = some irs) :
    getIndentMetadata model lineNumber lcs =
      if lineNumber < 1 ∨ lineNumber > model.getLineCount then none
      else some (irs.getIndentMetadata (model.getLineContent lineNumber)) := by
  unfold getIndentMetadata
  rw [h]

theorem getIndentMetadata_of_none (model : ITextModel) (lineNumber : Nat)
    (lcs : LangConfigService)
    (h : (lcs.getLanguageConfiguration model.getLanguageId).indentRulesSupport = none) :
    getIndentMetadata model lineNumber lcs = none := by
  unfold getIndentMetadata
  rw [h]

theorem C9_getIndentMetadata (model : ITextModel) (lineNumber : Nat) (lcs : LangConfigService) :
    (getIndentMetadata model lineNumber lcs = none ↔
      ((lcs.getLanguageConfiguration model.getLanguageId).indentRulesSupport = none
        ∨ lineNumber < 1 ∨ model.getLineCount < lineNumber))
    ∧ (∀ irs,
        (lcs.getLanguageConfiguration model.getLanguageId).indentRulesSupport = some irs →
        1 ≤ lineNumber → lineNumber ≤ model.getLineCount →
        getIndentMetadata model lineNumber lcs
          = some (irs.getIndentMetadata (model.getLineContent lineNumber))) := by
  constructor
  · cases h : (lcs.getLanguageConfiguration model.getLanguageId).indentRulesSupport with
    | none =>
      rw [getIndentMetadata_of_none model lineNumber lcs h]
      simp
    | some irs =>
      rw [getIndentMetadata_of_some model lineNumber lcs irs h]
      constructor
      · intro hnone
        by_cases hr : lineNumber < 1 ∨ lineNumber > model.getLineCount
        · right; exact hr
        · rw [if_neg hr] at hnone
          exact absurd hnone (by simp)
      · intro hcase
        rcases hcase with hc | hc
        · exact Option.noConfusion hc
        · exact if_pos hc
  · intro irs hirs h1 h2
    rw [getIndentMetadata_of_some model lineNumber lcs irs hirs, if_neg (by omega)]

theorem C9_getIndentMetadata_witness :
    getIndentMetadata modelW 1 lcsW = some (irsW.getIndentMetadata ("")) :=
  (C9_getIndentMetadata modelW 1 lcsW).2 irsW rfl (by decide) (by decide)

/-! ### C7 -/

/-- C7: for every call to getIndentForEnter with autoIndent at least Full and
indent rules available for the language at the cursor: if the cursor is inside
embedded-language content (scoped firstCharOffset > 0 and the language of the
line's first token differs from the scoped language), the returned beforeEnter
equals the current line's existing leading whitespace; otherwise beforeEnter
equals the leading whitespace of the text of the line before the cursor
position. -/
theorem C7_getIndentForEnter_beforeEnter (autoIndent : Nat) (model : ITextModel)
    (range : ERange) (conv : IIndentConverter) (lcs : LangConfigService)
    (irs : IndentRulesSupport)
    (h4 : EditorAutoIndentStrategy.Full ≤ autoIndent)
    (hirs : (lcs.getLanguageConfiguration
        (model.getScopedLineTokens range.startLineNumber range.startColumn).languageId).indentRulesSupport
        = some irs) :
    ∃ r, getIndentForEnter autoIndent model range conv lcs = some r
      ∧ r.beforeEnter =
          (if (model.getScopedLineTokens range.startLineNumber range.startColumn).firstCharOffset > 0
              ∧ (model.getLineTokens range.startLineNumber).getLanguageId0
                  ≠ (model.getScopedLineTokens range.startLineNumber range.startColumn).languageId
           then getLeadingWhitespace (model.getLineTokens range.startLineNumber).content
           else getLeadingWhitespace
                  (strTake (model.getLineTokens range.startLineNumber).content
                    (range.startColumn - 1))) := by
  unfold getIndentForEnter
  rw [if_neg (by omega)]
  dsimp only
  rw [hirs]
  dsimp only
  by_cases hemb : (model.getScopedLineTokens range.startLineNumber range.startColumn).firstCharOffset > 0
      ∧ (model.getLineTokens range.startLineNumber).getLanguageId0
          ≠ (model.getScopedLineTokens range.startLineNumber range.startColumn).languageId
  · simp only [if_pos hemb]
    cases hinh : getInheritIndentForLine autoIndent
        { getLineTokens := model.getLineTokens
          getLanguageId := model.getLanguageId
          getLanguageIdAtPosition := model.getLanguageIdAtPosition
          getLineContent := fun n =>
            if n = range.startLineNumber then
              jsSubstr (model.getScopedLineTokens range.startLineNumber range.startColumn).content 0
                ((range.startColumn : Int) - 1
                  - ((model.getScopedLineTokens range.startLineNumber range.startColumn).firstCharOffset : Int))
            else model.getLineContent n }
        (range.startLineNumber + 1) true lcs with
    | none => exact ⟨_, rfl, rfl⟩
    | some act => exact ⟨_, rfl, rfl⟩
  · simp only [if_neg hemb]
    cases hinh : getInheritIndentForLine autoIndent
        { getLineTokens := model.getLineTokens
          getLanguageId := model.getLanguageId
          getLanguageIdAtPosition := model.getLanguageIdAtPosition
          getLineContent := fun n =>
            if n = range.startLineNumber then
              jsSubstring (model.getLineTokens range.startLineNumber).content 0
                ((range.startColumn : Int) - 1)
            else model.getLineContent n }
        (range.startLineNumber + 1) true lcs with
    | none =>
      refine ⟨_, rfl, ?_⟩
      rw [jsSubstring_zero_sub_one]
    | some act =>
      refine ⟨_, rfl, ?_⟩
      rw [jsSubstring_zero_sub_one]

theorem C7_getIndentForEnter_beforeEnter_witness :
    ∃ r, getIndentForEnter 4 modelW rangeW convW lcsW = some r
      ∧ r.beforeEnter =
          (if (modelW.getScopedLineTokens rangeW.startLineNumber rangeW.startColumn).firstCharOffset > 0
              ∧ (modelW.getLineTokens rangeW.startLineNumber).getLanguageId0
                  ≠ (modelW.getScopedLineTokens rangeW.startLineNumber rangeW.startColumn).languageId
           then getLeadingWhitespace (modelW.getLineTokens rangeW.startLineNumber).content
           else getLeadingWhitespace
                  (strTake (modelW.getLineTokens rangeW.startLineNumber).content
                    (rangeW.startColumn - 1))) :=
  C7_getIndentForEnter_beforeEnter 4 modelW rangeW convW lcsW irsW (by decide) rfl

/-! ### C1 -/

/-- C1: getIndentActionForType returns a non-null indentation string only if
the text of the language region at the cursor does not match
decreaseIndentPattern without ch but does match it once ch is inserted at the
cursor; in every other case — including a mixed-language region
(firstCharOffset non-zero) or no indent rules for the language — it returns
null; and the returned string is the inherited indentation, unshifted once
unless the inherited indent action is Indent. -/
theorem C1_getIndentActionForType (autoIndent : Nat) (model : ITextModel) (range : ERange)
    (ch : String) (conv : IIndentConverter) (lcs : LangConfigService) :
    (∀ s, getIndentActionForType autoIndent model range ch conv lcs = some s →
      EditorAutoIndentStrategy.Full ≤ autoIndent
      ∧ (model.getScopedLineTokens range.startLineNumber range.startColumn).firstCharOffset = 0
      ∧ ∃ irs, (lcs.getLanguageConfiguration
            (model.getScopedLineTokens range.startLineNumber range.startColumn).languageId).indentRulesSupport
            = some irs
          ∧ irs.shouldDecrease (typeFullText model range) = false
          ∧ irs.shouldDecrease (typeFullTextWithCharacter model range ch) = true
          ∧ ∃ r, getInheritIndentForLine autoIndent model.toVirtual range.startLineNumber false lcs
                = some r
              ∧ s = (if r.action = some IndentAction.indent then r.indentation
                     else conv.unshiftIndent r.indentation))
    ∧ ((model.getScopedLineTokens range.startLineNumber range.startColumn).firstCharOffset ≠ 0 →
        getIndentActionForType autoIndent model range ch conv lcs = none)
    ∧ ((lcs.getLanguageConfiguration
          (model.getScopedLineTokens range.startLineNumber range.startColumn).languageId).indentRulesSupport
          = none →
        getIndentActionForType autoIndent model range ch conv lcs = none)
    ∧ (∀ irs, (lcs.getLanguageConfiguration
          (model.getScopedLineTokens range.startLineNumber range.startColumn).languageId).indentRulesSupport
          = some irs →
        ¬(irs.shouldDecrease (typeFullText model range) = false
          ∧ irs.shouldDecrease (typeFullTextWithCharacter model range ch) = true) →
        getIndentActionForType autoIndent model range ch conv lcs = none) := by
  by_cases hfull : autoIndent < EditorAutoIndentStrategy.Full
  · have hnone : getIndentActionForType autoIndent model range ch conv lcs = none := by
      unfold getIndentActionForType
      rw [if_pos hfull]
    refine ⟨?_, ?_, ?_, ?_⟩
    · intro s hs; rw [hnone] at hs; exact Option.noConfusion hs
    · intro _; exact hnone
    · intro _; exact hnone
    · intro _ _ _; exact hnone
  · by_cases hoff : (model.getScopedLineTokens range.startLineNumber range.startColumn).firstCharOffset ≠ 0
    · have hnone : getIndentActionForType autoIndent model range ch conv lcs = none := by
        unfold getIndentActionForType
        rw [if_neg hfull]
        dsimp only
        rw [if_pos hoff]
      refine ⟨?_, ?_, ?_, ?_⟩
      · intro s hs; rw [hnone] at hs; exact Option.noConfusion hs
      · intro _; exact hnone
      · intro _; exact hnone
      · intro _ _ _; exact hnone
    · have heq : getIndentActionForType autoIndent model range ch conv lcs =
          (match (lcs.getLanguageConfiguration
              (model.getScopedLineTokens range.startLineNumber range.startColumn).languageId).indentRulesSupport with
           | none => none
           | some irs =>
             if irs.shouldDecrease (typeFullText model range) = false
                 ∧ irs.shouldDecrease (typeFullTextWithCharacter model range ch) = true then
               match getInheritIndentForLine autoIndent model.toVirtual range.startLineNumber false lcs with
               | none => none
               | some r =>
                 if r.action ≠ some IndentAction.indent then some (conv.unshiftIndent r.indentation)
                 else some r.indentation
             else none) := by
        unfold getIndentActionForType
        rw [if_neg hfull]
        dsimp only
        rw [if_neg hoff]
      cases hirs : (lcs.getLanguageConfiguration
          (model.getScopedLineTokens range.startLineNumber range.startColumn).languageId).indentRulesSupport with
      | none =>
        rw [hirs] at heq
        have hnone : getIndentActionForType autoIndent model range ch conv lcs = none := heq
        refine ⟨?_, ?_, ?_, ?_⟩
        · intro s hs; rw [hnone] at hs; exact Option.noConfusion hs
        · intro _; exact hnone
        · intro _; exact hnone
        · intro irs his hnd; exact hnone
      | some irs =>
        rw [hirs] at heq
        have heqr : getIndentActionForType autoIndent model range ch conv lcs =
            (if irs.shouldDecrease (typeFullText model range) = false
                ∧ irs.shouldDecrease (typeFullTextWithCharacter model range ch) = true then
              (match getInheritIndentForLine autoIndent model.toVirtual range.startLineNumber false lcs with
               | none => none
               | some r =>
                 if r.action ≠ some IndentAction.indent then some (conv.unshiftIndent r.indentation)
                 else some r.indentation)
             else none) := heq
        by_cases hdec : irs.shouldDecrease (typeFullText model range) = false
            ∧ irs.shouldDecrease (typeFullTextWithCharacter model range ch) = true
        · have heq2 : getIndentActionForType autoIndent model range ch conv lcs =
              (match getInheritIndentForLine autoIndent model.toVirtual range.startLineNumber false lcs with
               | none => none
               | some r =>
                 if r.action ≠ some IndentAction.indent then some (conv.unshiftIndent r.indentation)
                 else some r.indentation) := by
            rw [heqr, if_pos hdec]
          refine ⟨?_, ?_, ?_, ?_⟩
          · intro s hs
            rw [heq2] at hs
            refine ⟨by omega, by omega, irs, rfl, hdec.1, hdec.2, ?_⟩
            cases hr : getInheritIndentForLine autoIndent model.toVirtual range.startLineNumber false lcs with
            | none =>
              rw [hr] at hs
              exact Option.noConfusion hs
            | some r =>
              rw [hr] at hs
              have hs2 : (if r.action ≠ some IndentAction.indent then
                  some (conv.unshiftIndent r.indentation) else some r.indentation) = some s := hs
              refine ⟨r, rfl, ?_⟩
              by_cases hact : r.action = some IndentAction.indent
              · rw [if_neg (by simp [hact]), Option.some.injEq] at hs2
                rw [if_pos hact]
                exact hs2.symm
              · rw [if_pos hact, Option.some.injEq] at hs2
                rw [if_neg hact]
                exact hs2.symm
          · intro hoff2; exact absurd hoff2 hoff
          · intro hn; exact Option.noConfusion hn
          · intro irs2 hirs2 hnd
            cases hirs2
            exact absurd hdec hnd
        · have hnone : getIndentActionForType autoIndent model range ch conv lcs = none := by
            rw [heqr, if_neg hdec]
          refine ⟨?_, ?_, ?_, ?_⟩
          · intro s hs; rw [hnone] at hs; exact Option.noConfusion hs
          · intro hoff2; exact absurd hoff2 hoff
          · intro hn; exact Option.noConfusion hn
          · intro _ _ _; exact hnone

theorem C1_getIndentActionForType_witness :
    EditorAutoIndentStrategy.Full ≤ 4
    ∧ (modelW.getScopedLineTokens rangeW.startLineNumber rangeW.startColumn).firstCharOffset = 0
    ∧ ∃ irs, (lcsW.getLanguageConfiguration
          (modelW.getScopedLineTokens rangeW.startLineNumber rangeW.startColumn).languageId).indentRulesSupport
          = some irs
        ∧ irs.shouldDecrease (typeFullText modelW rangeW) = false
        ∧ irs.shouldDecrease (typeFullTextWithCharacter modelW rangeW ("\x7d")) = true
        ∧ ∃ r, getInheritIndentForLine 4 modelW.toVirtual rangeW.startLineNumber false lcsW
              = some r
            ∧ ("" : String) = (if r.action = some IndentAction.indent then r.indentation
                   else convW.unshiftIndent r.indentation) :=
  (C1_getIndentActionForType 4 modelW rangeW ("\x7d") convW lcsW).1 ("") (by decide)

/-! ### C2 -/

theorem setCurrentResult_opsInFlight (cfg : HoverConfig) (s : HoverState)
    (r? : Option HoverResult) : (setCurrentResult cfg s r?).opsInFlight = s.opsInFlight := by
  unfold setCurrentResult renderHoverParts
  split
  · rfl
  · dsimp only
    split
    · split
      · rfl
      · rfl
    · rfl

/-- C2: the hover controller performs cancel-and-replace of a single
asynchronous fetch: starting a hover computation at an anchor different from
the current computation anchor cancels the in-flight operation before the new
one starts (the emitted trace is `[cancel, start]`), so at most one fetch is
ever in flight; if the requested anchor equals the current computation anchor
no new operation is started; and hide() also cancels the in-flight operation. -/
theorem C2_cancelAndReplace (cfg : HoverConfig) (s : HoverState) (a : HoverAnchor)
    (mode source : Nat) (focus insist : Bool) (h : s.opsInFlight ≤ 1) :
    ((startHoverOperationIfNecessary s a mode source focus insist).state.opsInFlight ≤ 1)
    ∧ ((startHoverOperationIfNecessary s a mode source focus insist).trace = []
        ∨ (startHoverOperationIfNecessary s a mode source focus insist).trace
            = [HoverEv.cancel, HoverEv.start a])
    ∧ (s.computerAnchor = some a →
        startHoverOperationIfNecessary s a mode source focus insist = ⟨s, []⟩)
    ∧ (s.computerAnchor ≠ some a →
        (startHoverOperationIfNecessary s a mode source focus insist).trace
            = [HoverEv.cancel, HoverEv.start a]
        ∧ (startHoverOperationIfNecessary s a mode source focus insist).state.opsInFlight = 1
        ∧ (startHoverOperationIfNecessary s a mode source focus insist).state.computerAnchor
            = some a)
    ∧ ((hideHover cfg s).state.opsInFlight = 0 ∧ (hideHover cfg s).trace = [HoverEv.cancel]) := by
  have hhide : (hideHover cfg s).state.opsInFlight = 0 ∧ (hideHover cfg s).trace = [HoverEv.cancel] := by
    unfold hideHover
    exact ⟨setCurrentResult_opsInFlight cfg _ none, rfl⟩
  cases hca : s.computerAnchor with
  | none =>
    have hred : startHoverOperationIfNecessary s a mode source focus insist =
        ⟨{ s with
            computerAnchor := some a
            computerShouldFocus := focus
            computerSource := source
            computerInsist := insist
            opsInFlight := 1 },
          [HoverEv.cancel, HoverEv.start a]⟩ := by
      unfold startHoverOperationIfNecessary
      rw [hca]
      rfl
    refine ⟨?_, Or.inr (by rw [hred]), ?_, fun _ => ⟨by rw [hred], by rw [hred], by rw [hred]⟩, hhide⟩
    · rw [hred]
    · intro hcontra
      exact Option.noConfusion hcontra
  | some ca =>
    by_cases hceq : ca = a
    · subst hceq
      have hred : startHoverOperationIfNecessary s ca mode source focus insist = ⟨s, []⟩ := by
        unfold startHoverOperationIfNecessary
        rw [hca]
        simp
      refine ⟨by rw [hred]; exact h, Or.inl (by rw [hred]), fun _ => hred, ?_, hhide⟩
      intro hne
      exact absurd rfl hne
    · have hred : startHoverOperationIfNecessary s a mode source focus insist =
          ⟨{ s with
              computerAnchor := some a
              computerShouldFocus := focus
              computerSource := source
              computerInsist := insist
              opsInFlight := 1 },
            [HoverEv.cancel, HoverEv.start a]⟩ := by
        unfold startHoverOperationIfNecessary
        rw [hca]
        simp [hceq]
      refine ⟨?_, Or.inr (by rw [hred]), ?_, fun _ => ⟨by rw [hred], by rw [hred], by rw [hred]⟩, hhide⟩
      · rw [hred]
      · intro hc
        exact absurd (Option.some.injEq ca a ▸ hc) hceq

theorem C2_cancelAndReplace_witness :
    ((startHoverOperationIfNecessary stateW anchorW 0 0 false false).state.opsInFlight ≤ 1)
    ∧ ((startHoverOperationIfNecessary stateW anchorW 0 0 false false).trace = []
        ∨ (startHoverOperationIfNecessary stateW anchorW 0 0 false false).trace
            = [HoverEv.cancel, HoverEv.start anchorW])
    ∧ (stateW.computerAnchor = some anchorW →
        startHoverOperationIfNecessary stateW anchorW 0 0 false false = ⟨stateW, []⟩)
    ∧ (stateW.computerAnchor ≠ some anchorW →
        (startHoverOperationIfNecessary stateW anchorW 0 0 false false).trace
            = [HoverEv.cancel, HoverEv.start anchorW]
        ∧ (startHoverOperationIfNecessary stateW anchorW 0 0 false false).state.opsInFlight = 1
        ∧ (startHoverOperationIfNecessary stateW anchorW 0 0 false false).state.computerAnchor
            = some anchorW)
    ∧ ((hideHover cfgW stateW).state.opsInFlight = 0
        ∧ (hideHover cfgW stateW).trace = [HoverEv.cancel]) :=
  C2_cancelAndReplace cfgW stateW anchorW 0 0 false false (by decide)

/-! ### C5 -/

/-- C5: when the hover widget is visible with a complete current result, an
incoming incomplete (partial) result is ignored and leaves the whole
controller state (current result and rendered widget) unchanged; likewise,
when insistOnKeepingHoverVisible is set and the incoming complete result has
no messages, the previous messages are kept unchanged. -/
theorem C5_withResult_frame (cfg : HoverConfig) (s : HoverState) (r : HoverResult)
    (hvis : s.widgetPosition.isSome = true)
    (hcur : ∃ c, s.currentResult = some c ∧ c.isComplete = true)
    (hcase : r.isComplete = false ∨ (s.computerInsist = true ∧ r.messages = [])) :
    withResult cfg s r = s := by
  obtain ⟨c, hc, hcomp⟩ := hcur
  have hcond : (s.widgetPosition.isSome
      && (match s.currentResult with | some c => c.isComplete | none => false)) = true := by
    rw [hvis, hc]
    show (true && c.isComplete) = true
    rw [hcomp]
    rfl
  unfold withResult
  rw [if_pos hcond]
  rcases hcase with hinc | ⟨hins, hmsg⟩
  · rw [if_pos hinc]
  · by_cases hinc : r.isComplete = false
    · rw [if_pos hinc]
    · rw [if_neg hinc, if_pos ⟨hins, hmsg⟩]

theorem C5_withResult_frame_witness :
    withResult cfgW stateVisW resultPartialW = stateVisW :=
  C5_withResult_frame cfgW stateVisW resultPartialW (by decide)
    ⟨resultCompleteW, rfl, rfl⟩ (Or.inl rfl)

/-! ### C4 -/

theorem chrStep_fold_proj (plusRange : ERange → ERange → ERange) (aln scb : Nat)
    (msgs : List Part) :
    ∀ (rsc : Nat) (hr : ERange) (fr : Option ERange),
      (msgs.foldl (chrStep plusRange aln scb) (rsc, hr, fr)).2.1
          = msgs.foldl (fun acc m => plusRange acc m.range) hr
      ∧ (msgs.foldl (chrStep plusRange aln scb) (rsc, hr, fr)).2.2
          = msgs.foldl (fun acc m => if m.forceShowAtRange then some m.range else acc) fr := by
  induction msgs with
  | nil => intro rsc hr fr; exact ⟨rfl, rfl⟩
  | cons m ms ih =>
    intro rsc hr fr
    simp only [List.foldl_cons, chrStep]
    exact ih _ _ _

theorem find?_append_part (l1 l2 : List Part) (p : Part → Bool) :
    (l1 ++ l2).find? p =
      (match l1.find? p with | some x => some x | none => l2.find? p) := by
  induction l1 with
  | nil => simp
  | cons a l ih =>
    by_cases hp : p a
    · simp [List.find?, hp]
    · simp only [List.cons_append, List.find?, hp]
      exact ih

theorem foldl_forced_eq (msgs : List Part) (init : Option ERange) :
    msgs.foldl (fun acc m => if m.forceShowAtRange then some m.range else acc) init
      = (match msgs.reverse.find? (fun m => m.forceShowAtRange) with
         | some m => some m.range
         | none => init) := by
  induction msgs generalizing init with
  | nil => simp
  | cons m ms ih =>
    simp only [List.foldl_cons, List.reverse_cons]
    rw [ih, find?_append_part]
    cases hf : ms.reverse.find? (fun m => m.forceShowAtRange) with
    | some x => rfl
    | none =>
      by_cases hm : m.forceShowAtRange
      · simp [List.find?, hm]
      · simp [List.find?, hm]

theorem headD_eq_head {α : Type} [Inhabited α] (l : List α) (h : l ≠ []) :
    l.headD default = l.head h := by
  cases l with
  | nil => exact absurd rfl h
  | cons a t => rfl

/-- C4: for every non-empty list of hover messages, computeHoverRanges returns
a highlightRange equal to the plusRange-union of the first message's range
with the ranges of all messages, and a showAtPosition equal to the start
position of the range of the last message whose forceShowAtRange flag is set,
or, when no message forces a range, the anchor's start position. -/
theorem C4_computeHoverRanges (plusRange : ERange → ERange → ERange) (scb : Nat)
    (anchorRange : ERange) (msgs : List Part) (h : msgs ≠ []) :
    (computeHoverRanges plusRange scb anchorRange msgs).highlightRange
        = msgs.foldl (fun acc m => plusRange acc m.range) (msgs.head h).range
    ∧ (computeHoverRanges plusRange scb anchorRange msgs).showAtPosition
        = (match msgs.reverse.find? (fun m => m.forceShowAtRange) with
           | some m => (⟨m.range.startLineNumber, m.range.startColumn⟩ : EPosition)
           | none => ⟨anchorRange.startLineNumber, anchorRange.startColumn⟩) := by
  unfold computeHoverRanges
  dsimp only
  rw [headD_eq_head msgs h]
  constructor
  · exact (chrStep_fold_proj plusRange anchorRange.startLineNumber scb msgs
      anchorRange.startColumn (msgs.head h).range none).1
  · rw [(chrStep_fold_proj plusRange anchorRange.startLineNumber scb msgs
      anchorRange.startColumn (msgs.head h).range none).2]
    rw [foldl_forced_eq msgs none]
    cases msgs.reverse.find? (fun m => m.forceShowAtRange) with
    | some x => rfl
    | none => rfl

theorem C4_computeHoverRanges_witness :
    (computeHoverRanges (fun a _ => a) 1 ⟨1, 1, 1, 5⟩ msgsW).highlightRange
        = msgsW.foldl (fun acc m => (fun a _ => a) acc m.range)
            (msgsW.head (by decide)).range
    ∧ (computeHoverRanges (fun a _ => a) 1 ⟨1, 1, 1, 5⟩ msgsW).showAtPosition
        = (match msgsW.reverse.find? (fun m => m.forceShowAtRange) with
           | some m => (⟨m.range.startLineNumber, m.range.startColumn⟩ : EPosition)
           | none => ⟨(1 : Nat), (1 : Nat)⟩) :=
  C4_computeHoverRanges (fun a _ => a) 1 ⟨1, 1, 1, 5⟩ msgsW (by decide)

/-! ### C6 -/

theorem sortParticipants_sorted (ps : List Participant) :
    List.Sorted (fun p q => p.hoverOrdinal ≤ q.hoverOrdinal) (sortParticipants ps) := by
  haveI : IsTotal Participant (fun p q => p.hoverOrdinal ≤ q.hoverOrdinal) :=
    ⟨fun a b => le_total _ _⟩
  haveI : IsTrans Participant (fun p q => p.hoverOrdinal ≤ q.hoverOrdinal) :=
    ⟨fun _ _ _ hab hbc => le_trans hab hbc⟩
  exact List.sorted_insertionSort _ _

theorem sortParticipants_perm (ps : List Participant) :
    (sortParticipants ps).Perm ps :=
  List.perm_insertionSort _ _

/-- The block rendered for one participant. -/
theorem renderHoverPartsWithContext_eq_flatten (ps : List Participant) (parts : List Part) :
    renderHoverPartsWithContext ps parts = (ps.map (participantBlock parts)).flatten := rfl

theorem mem_participantBlock (parts : List Part) (p : Participant) (x : RenderedPart)
    (hx : x ∈ participantBlock parts p) : rpPid x = p.id ∧ rpOrdinal x = p.hoverOrdinal := by
  unfold participantBlock at hx
  rw [List.mem_map] at hx
  obtain ⟨hp, _, heq⟩ := hx
  subst heq
  exact ⟨rfl, rfl⟩

theorem pairwise_of_const_ordinal (l : List RenderedPart) (c : Int)
    (h : ∀ x ∈ l, rpOrdinal x = c) :
    l.Pairwise (fun x y => rpOrdinal x ≤ rpOrdinal y) := by
  induction l with
  | nil => exact List.Pairwise.nil
  | cons a t ih =>
    refine List.Pairwise.cons ?_ (ih (fun x hx => h x (List.mem_cons_of_mem a hx)))
    intro b hb
    rw [h a (List.mem_cons_self a t), h b (List.mem_cons_of_mem a hb)]

/-- C6: after construction the participant list is sorted in ascending
hoverOrdinal order, and a render pass iterates participants in that order, so
the rendered hover parts appear grouped by participant in ascending
hoverOrdinal order, with the status bar (when it has content) appended after
all participant parts.  The Nodup hypothesis models that the registered
participant instances are distinct objects (`owner === participant` is
reference equality). -/
theorem C6_renderOrder (registry : List Participant) (parts : List Part) (sb : Bool)
    (hnd : (registry.map (fun p => p.id)).Nodup) :
    List.Sorted (fun a b : Int => a ≤ b)
        ((sortParticipants registry).map (fun p => p.hoverOrdinal))
    ∧ renderHoverPartsInFragment (sortParticipants registry) parts sb
        = renderHoverPartsWithContext (sortParticipants registry) parts
            ++ (if sb then [RenderedPart.statusBar] else [])
    ∧ (renderHoverPartsWithContext (sortParticipants registry) parts).Pairwise
        (fun x y => rpOrdinal x ≤ rpOrdinal y)
    ∧ GroupedByPid (renderHoverPartsWithContext (sortParticipants registry) parts) := by
  have hsorted := sortParticipants_sorted registry
  have hnds : ((sortParticipants registry).map (fun p => p.id)).Nodup :=
    ((sortParticipants_perm registry).map (fun p => p.id)).symm.nodup hnd
  have hpairid : (sortParticipants registry).Pairwise (fun p q => p.id ≠ q.id) :=
    List.pairwise_map.mp hnds
  refine ⟨List.pairwise_map.mpr hsorted, rfl, ?_, ?_⟩
  · rw [renderHoverPartsWithContext_eq_flatten, List.pairwise_flatten]
    constructor
    · intro l hl
      rw [List.mem_map] at hl
      obtain ⟨p, _, hpe⟩ := hl
      subst hpe
      exact pairwise_of_const_ordinal _ p.hoverOrdinal
        (fun x hx => (mem_participantBlock parts p x hx).2)
    · refine List.pairwise_map.mpr (hsorted.imp ?_)
      intro p q hpq x hx y hy
      rw [(mem_participantBlock parts p x hx).2, (mem_participantBlock parts q y hy).2]
      exact hpq
  · refine ⟨(sortParticipants registry).map (participantBlock parts),
      renderHoverPartsWithContext_eq_flatten _ _, ?_, ?_⟩
    · intro b hb x hx y hy
      rw [List.mem_map] at hb
      obtain ⟨p, _, hpe⟩ := hb
      subst hpe
      rw [(mem_participantBlock parts p x hx).1, (mem_participantBlock parts p y hy).1]
    · refine List.pairwise_map.mpr (hpairid.imp ?_)
      intro p q hpq x hx y hy
      rw [(mem_participantBlock parts p x hx).1, (mem_participantBlock parts q y hy).1]
      exact hpq

theorem C6_renderOrder_witness :
    List.Sorted (fun a b : Int => a ≤ b)
        ((sortParticipants [participantW1, participantW2]).map (fun p => p.hoverOrdinal))
    ∧ renderHoverPartsInFragment (sortParticipants [participantW1, participantW2])
          [⟨1, ⟨1, 1, 1, 2⟩, false, false, []⟩] true
        = renderHoverPartsWithContext (sortParticipants [participantW1, participantW2])
              [⟨1, ⟨1, 1, 1, 2⟩, false, false, []⟩]
            ++ (if true then [RenderedPart.statusBar] else [])
    ∧ (renderHoverPartsWithContext (sortParticipants [participantW1, participantW2])
          [⟨1, ⟨1, 1, 1, 2⟩, false, false, []⟩]).Pairwise
        (fun x y => rpOrdinal x ≤ rpOrdinal y)
    ∧ GroupedByPid (renderHoverPartsWithContext (sortParticipants [participantW1, participantW2])
        [⟨1, ⟨1, 1, 1, 2⟩, false, false, []⟩]) :=
  C6_renderOrder [participantW1, participantW2] [⟨1, ⟨1, 1, 1, 2⟩, false, false, []⟩] true
    (by decide)

/-! ### C3 -/

theorem sSOUH_some_true (cfg : HoverConfig) (s : HoverState) (a : HoverAnchor)
    (mode source : Nat) (focus : Bool) (ev? : Option MouseEvent) :
    (startShowingOrUpdateHover cfg s (some a) mode source focus ev?).res = true := by
  unfold startShowingOrUpdateHover
  cases s.widgetPosition with
  | none => cases s.currentResult <;> rfl
  | some wpos =>
    cases s.currentResult with
    | none => rfl
    | some cur =>
      dsimp only
      split
      · rfl
      · split
        · rfl
        · split
          · rfl
          · rfl

theorem setCurrentResult_none_not_visible (cfg : HoverConfig) (s : HoverState)
    (hcur : s.currentResult.isSome = true) :
    hoverVisibleB (setCurrentResult cfg s none) = false := by
  unfold setCurrentResult
  rw [if_neg (by intro hq; rw [hq] at hcur; exact Bool.noConfusion hcur)]
  unfold hoverVisibleB
  rfl

theorem sSOUH_none_spec (cfg : HoverConfig) (s : HoverState) (mode source : Nat)
    (focus : Bool) (ev : MouseEvent) :
    ((startShowingOrUpdateHover cfg s none mode source focus (some ev)).res = false ↔
      (hoverVisibleB s = false
        ∨ hoverVisibleB (startShowingOrUpdateHover cfg s none mode source focus (some ev)).state
            = false)) := by
  cases hwp : s.widgetPosition with
  | none =>
    have hred : startShowingOrUpdateHover cfg s none mode source focus (some ev)
        = ⟨false, s, []⟩ := by
      unfold startShowingOrUpdateHover
      rw [hwp]
    rw [hred]
    simp [hoverVisibleB, hwp]
  | some wpos =>
    cases hcr : s.currentResult with
    | none =>
      have hred : startShowingOrUpdateHover cfg s none mode source focus (some ev)
          = ⟨false, s, []⟩ := by
        unfold startShowingOrUpdateHover
        rw [hwp, hcr]
      rw [hred]
      simp [hoverVisibleB, hcr]
    | some cur =>
      have hred : startShowingOrUpdateHover cfg s none mode source focus (some ev)
          = (if (cfg.sticky && cfg.isMouseGettingCloser ev.posx ev.posy) = true
             then ⟨true, s, []⟩
             else ⟨false, setCurrentResult cfg s none, []⟩) := by
        unfold startShowingOrUpdateHover
        rw [hwp, hcr]
      have hvis : hoverVisibleB s = true := by
        unfold hoverVisibleB
        rw [hwp, hcr]
        rfl
      by_cases hig : (cfg.sticky && cfg.isMouseGettingCloser ev.posx ev.posy) = true
      · rw [hred, if_pos hig]
        constructor
        · intro habs
          exact Bool.noConfusion habs
        · intro hcase
          rcases hcase with hcase | hcase
          · rw [hvis] at hcase
            exact Bool.noConfusion hcase
          · rw [hvis] at hcase
            exact Bool.noConfusion hcase
      · rw [hred, if_neg hig]
        constructor
        · intro _
          exact Or.inr (setCurrentResult_none_not_visible cfg s (by rw [hcr]; rfl))
        · intro _
          rfl

theorem sortAnchorsDesc_sorted (l : List HoverAnchor) :
    List.Sorted (fun a b => b.priority ≤ a.priority) (sortAnchorsDesc l) := by
  haveI : IsTotal HoverAnchor (fun a b => b.priority ≤ a.priority) :=
    ⟨fun a b => (le_total b.priority a.priority)⟩
  haveI : IsTrans HoverAnchor (fun a b => b.priority ≤ a.priority) :=
    ⟨fun _ _ _ hab hbc => le_trans hbc hab⟩
  exact List.sorted_insertionSort _ _

theorem sortAnchorsDesc_head_max (l : List HoverAnchor) (h : l ≠ []) :
    ((sortAnchorsDesc l).headD (mkRangeAnchor default)) ∈ l
    ∧ ∀ c ∈ l, c.priority ≤ ((sortAnchorsDesc l).headD (mkRangeAnchor default)).priority := by
  have hperm : (sortAnchorsDesc l).Perm l := List.perm_insertionSort _ _
  have hsorted := sortAnchorsDesc_sorted l
  cases hs : sortAnchorsDesc l with
  | nil =>
    rw [hs] at hperm
    exact absurd (hperm.symm.eq_nil) h
  | cons a t =>
    rw [hs] at hperm hsorted
    constructor
    · exact hperm.subset (List.mem_cons_self a t)
    · intro c hc
      have hc2 : c ∈ a :: t := hperm.symm.subset hc
      rcases List.mem_cons.mp hc2 with hc2 | hc2
      · subst hc2
        exact le_refl _
      · exact List.rel_of_sorted_cons hsorted c hc2

/-- C3: showsOrWillShow returns true (leaving the state unchanged) whenever
the widget is resizing; otherwise it collects anchor candidates (one per
suggesting participant plus the mouse-target range anchor) and, when
candidates exist, delegates to the show-or-update decision at a candidate of
maximal priority; it returns false exactly when there is no candidate and the
hover either was not visible or is hidden by the call. -/
theorem C3_showsOrWillShow (cfg : HoverConfig) (s : HoverState) (ev : MouseEvent) :
    (s.widgetResizing = true → showsOrWillShow cfg s ev = ⟨true, s, []⟩)
    ∧ (s.widgetResizing = false →
        (gatherAnchorCandidates cfg ev ≠ [] →
          ∃ chosen, chosen ∈ gatherAnchorCandidates cfg ev
            ∧ (∀ c ∈ gatherAnchorCandidates cfg ev, c.priority ≤ chosen.priority)
            ∧ showsOrWillShow cfg s ev
                = startShowingOrUpdateHover cfg s (some chosen) hoverStartModeDelayed
                    hoverStartSourceMouse false (some ev)
            ∧ (showsOrWillShow cfg s ev).res = true)
        ∧ ((showsOrWillShow cfg s ev).res = false ↔
            gatherAnchorCandidates cfg ev = []
              ∧ (hoverVisibleB s = false
                  ∨ hoverVisibleB (showsOrWillShow cfg s ev).state = false))) := by
  constructor
  · intro hres
    unfold showsOrWillShow
    rw [if_pos hres]
  · intro hres
    by_cases hc : gatherAnchorCandidates cfg ev = []
    · have hred : showsOrWillShow cfg s ev
          = startShowingOrUpdateHover cfg s none hoverStartModeDelayed hoverStartSourceMouse
              false (some ev) := by
        unfold showsOrWillShow
        rw [if_neg (by rw [hres]; exact Bool.noConfusion), if_pos (by rw [hc]; rfl)]
      constructor
      · intro hne
        exact absurd hc hne
      · rw [hred]
        have := sSOUH_none_spec cfg s hoverStartModeDelayed hoverStartSourceMouse false ev
        constructor
        · intro hfalse
          exact ⟨hc, this.mp hfalse⟩
        · intro hcase
          exact this.mpr hcase.2
    · have hred : showsOrWillShow cfg s ev
          = startShowingOrUpdateHover cfg s
              (some ((sortAnchorsDesc (gatherAnchorCandidates cfg ev)).headD (mkRangeAnchor default)))
              hoverStartModeDelayed hoverStartSourceMouse false (some ev) := by
        unfold showsOrWillShow
        rw [if_neg (by rw [hres]; exact Bool.noConfusion),
          if_neg (by intro hq; exact hc (List.isEmpty_iff.mp hq))]
      have htrue : (showsOrWillShow cfg s ev).res = true := by
        rw [hred]
        exact sSOUH_some_true cfg s _ _ _ _ _
      constructor
      · intro _
        obtain ⟨hmem, hmax⟩ := sortAnchorsDesc_head_max (gatherAnchorCandidates cfg ev) hc
        exact ⟨_, hmem, hmax, hred, htrue⟩
      · rw [htrue]
        constructor
        · intro habs
          exact Bool.noConfusion habs
        · intro hcase
          exact absurd hcase.1 hc

theorem C3_showsOrWillShow_witness :
    ∃ chosen, chosen ∈ gatherAnchorCandidates cfgW evW
      ∧ (∀ c ∈ gatherAnchorCandidates cfgW evW, c.priority ≤ chosen.priority)
      ∧ showsOrWillShow cfgW stateW evW
          = startShowingOrUpdateHover cfgW stateW (some chosen) hoverStartModeDelayed
              hoverStartSourceMouse false (some evW)
      ∧ (showsOrWillShow cfgW stateW evW).res = true :=
  ((C3_showsOrWillShow cfgW stateW evW).2 rfl).1 (by decide)

/-! ### C10 -/

theorem strMk_append (a b : List Char) : ((⟨a⟩ : String) ++ (⟨b⟩ : String)) = ⟨a ++ b⟩ := rfl

theorem strMk_data (s : String) : (⟨s.data⟩ : String) = s := rfl

theorem firstIndexOf_bound (l pat : List Char) :
    ∀ i, firstIndexOf l pat = some i → i + pat.length ≤ l.length := by
  induction l with
  | nil =>
    intro i h
    unfold firstIndexOf at h
    by_cases hp : pat.isPrefixOf ([] : List Char)
    · rw [if_pos hp] at h
      cases h
      have hlen := (List.isPrefixOf_iff_prefix.mp hp).length_le
      simpa using hlen
    · rw [if_neg hp] at h
      exact Option.noConfusion h
  | cons a tl ih =>
    intro i h
    unfold firstIndexOf at h
    by_cases hp : pat.isPrefixOf (a :: tl)
    · rw [if_pos hp] at h
      cases h
      have hlen := (List.isPrefixOf_iff_prefix.mp hp).length_le
      simpa using hlen
    · rw [if_neg hp] at h
      have h2 : Option.map (fun x => x + 1) (firstIndexOf tl pat) = some i := h
      cases hf : firstIndexOf tl pat with
      | none =>
        rw [hf] at h2
        exact Option.noConfusion h2
      | some j =>
        rw [hf] at h2
        have hij : j + 1 = i := by
          simpa using h2
        have := ih j hf
        simp only [List.length_cons]
        omega

theorem jsReplaceFirst_length (s pat : String) (hp : pat.length = 1) :
    (jsReplaceFirst s pat).length = s.length := by
  unfold jsReplaceFirst
  cases hf : firstIndexOf s.data pat.data with
  | none => rfl
  | some i =>
    have hb := firstIndexOf_bound s.data pat.data i hf
    rw [string_length_data pat] at hp
    rw [hp] at hb
    show (⟨s.data.take i ++ ['_'] ++ s.data.drop (i + pat.length)⟩ : String).length = s.length
    rw [string_length_data, string_length_data]
    show (s.data.take i ++ ['_'] ++ s.data.drop (i + pat.length)).length = s.data.length
    rw [show pat.length = 1 from hp]
    simp only [List.length_append, List.length_take, List.length_drop, List.length_cons,
      List.length_nil]
    omega

theorem foldl_replace_length (bs : List String) (h : ∀ b ∈ bs, b.length = 1) :
    ∀ s : String, (bs.foldl (fun s b => jsReplaceFirst s b) s).length = s.length := by
  induction bs with
  | nil => intro s; rfl
  | cons b bs ih =>
    intro s
    rw [List.foldl_cons, ih (fun x hx => h x (List.mem_cons_of_mem b hx))]
    exact jsReplaceFirst_length s b (h b (List.mem_cons_self b bs))

theorem replaceBracketsInToken_length (br2 : Option RichEditBrackets) (seg : String)
    (hb : singleCharBrackets br2 = true) :
    (replaceBracketsInToken br2 seg).length = seg.length := by
  cases br2 with
  | none => rfl
  | some br =>
    have hb2 := hb
    simp only [singleCharBrackets, List.all_eq_true, Bool.and_eq_true, beq_iff_eq] at hb2
    have hopen : ∀ b ∈ (br.brackets.map (fun bp => bp.openB)).flatten, b.length = 1 := by
      intro b hbmem
      rw [List.mem_flatten] at hbmem
      obtain ⟨l, hl, hbl⟩ := hbmem
      rw [List.mem_map] at hl
      obtain ⟨bp, hbp, hpe⟩ := hl
      subst hpe
      exact (hb2 bp hbp).1 b hbl
    have hclose : ∀ b ∈ (br.brackets.map (fun bp => bp.closeB)).flatten, b.length = 1 := by
      intro b hbmem
      rw [List.mem_flatten] at hbmem
      obtain ⟨l, hl, hbl⟩ := hbmem
      rw [List.mem_map] at hl
      obtain ⟨bp, hbp, hpe⟩ := hl
      subst hpe
      exact (hb2 bp hbp).2 b hbl
    unfold replaceBracketsInToken bracketsOpenList bracketsCloseList
    dsimp only
    rw [foldl_replace_length _ hclose _, foldl_replace_length _ hopen _]

theorem strSlice_length (s : String) (a b : Nat) (hab : a ≤ b) (hb : b ≤ s.length) :
    (strSlice s a b).length = b - a := by
  unfold strSlice
  rw [string_length_data] at hb ⊢
  show ((s.data.drop a).take (b - a)).length = b - a
  simp only [List.length_take, List.length_drop]
  omega

theorem jsSubstring_natcast_slice (s : String) (a b : Nat) (hab : a ≤ b) (hb : b ≤ s.length) :
    jsSubstring s (a : Int) (b : Int) = strSlice s a b := by
  unfold jsSubstring strSlice
  dsimp only
  rw [intClamp_natcast, intClamp_natcast]
  rw [show min a s.length = a by omega, show min b s.length = b by omega,
    show min a b = a by omega, show max a b = b by omega]

theorem take_append_self {α : Type} (l1 l2 : List α) : (l1 ++ l2).take l1.length = l1 := by
  simp

theorem drop_append_add {α : Type} (l1 l2 : List α) (n : Nat) :
    (l1 ++ l2).drop (l1.length + n) = l2.drop n := by
  simp

theorem drop_k_split (l : List Char) (k e : Nat) (hke : k ≤ e) :
    l.drop k = (l.drop k).take (e - k) ++ l.drop e := by
  conv_lhs => rw [← List.take_append_drop (e - k) (l.drop k)]
  rw [List.drop_drop, show k + (e - k) = e by omega]

theorem strippedStep_comment (brackets2 : Option RichEditBrackets) (line : String)
    (done : List Char) (k e : Nat) (t : TokenInfo)
    (htt : t.tokenType = StandardTokenType.comment)
    (hs : t.startOffset = k) (he : t.endOffset = e) (hke : k ≤ e) :
    strippedStep brackets2 line (⟨done ++ line.data.drop k⟩, (done.length : Int) - (k : Int)) t
      = (⟨done ++ line.data.drop e⟩, (done.length : Int) - (e : Int)) := by
  unfold strippedStep
  rw [htt]
  dsimp only
  rw [hs, he]
  rw [show ((done.length : Int) - (k : Int) + (k : Int)) = ((done.length : Nat) : Int) by omega]
  rw [show ((done.length : Int) - (k : Int) + (e : Int)) = (((done.length + (e - k) : Nat)) : Int)
    by omega]
  rw [jsSubstr_zero_natcast, jsSubstrFrom_natcast]
  unfold strTake strDrop
  rw [Prod.mk.injEq]
  constructor
  · show ((⟨(done ++ line.data.drop k).take done.length⟩ : String)
        ++ (⟨(done ++ line.data.drop k).drop (done.length + (e - k))⟩ : String))
      = (⟨done ++ line.data.drop e⟩ : String)
    rw [strMk_append]
    congr 1
    rw [take_append_self, drop_append_add, List.drop_drop, show k + (e - k) = e by omega]
  · omega

theorem strippedStep_other (brackets2 : Option RichEditBrackets) (line : String)
    (acc : String × Int) (t : TokenInfo)
    (htt : t.tokenType = StandardTokenType.other) :
    strippedStep brackets2 line acc t = acc := by
  unfold strippedStep
  rw [htt]

theorem strippedStep_stringlike (brackets2 : Option RichEditBrackets) (line : String)
    (done : List Char) (k e : Nat) (t : TokenInfo)
    (htt : t.tokenType = StandardTokenType.strTok ∨ t.tokenType = StandardTokenType.regEx)
    (hs : t.startOffset = k) (he : t.endOffset = e) (hke : k ≤ e) (hel : e ≤ line.length)
    (hb : singleCharBrackets brackets2 = true) :
    strippedStep brackets2 line (⟨done ++ line.data.drop k⟩, (done.length : Int) - (k : Int)) t
      = (⟨(done ++ (replaceBracketsInToken brackets2 (strSlice line k e)).data)
            ++ line.data.drop e⟩,
         ((done.length + (replaceBracketsInToken brackets2 (strSlice line k e)).data.length : Nat) : Int)
           - (e : Int)) := by
  have hslice : (strSlice line k e).length = e - k := strSlice_length line k e hke hel
  have hm2 : (replaceBracketsInToken brackets2 (strSlice line k e)).length
      = (strSlice line k e).length := replaceBracketsInToken_length brackets2 _ hb
  have hoff : ((done.length : Int) - (k : Int) + ((strSlice line k e).length : Int)
        - ((replaceBracketsInToken brackets2 (strSlice line k e)).length : Int))
      = (done.length : Int) - (k : Int) := by
    omega
  unfold strippedStep
  rcases htt with htt | htt
  all_goals (
    rw [htt]
    dsimp only
    rw [hs, he, jsSubstring_natcast_slice line k e hke hel, hoff]
    rw [show ((done.length : Int) - (k : Int) + (k : Int)) = ((done.length : Nat) : Int) by omega]
    rw [show ((done.length : Int) - (k : Int) + (e : Int)) = (((done.length + (e - k) : Nat)) : Int)
      by omega]
    rw [jsSubstring_zero_natcast, jsSubstringFrom_natcast]
    unfold strTake strDrop
    rw [Prod.mk.injEq]
    constructor
    · show ((⟨(done ++ line.data.drop k).take done.length⟩ : String)
            ++ replaceBracketsInToken brackets2 (strSlice line k e)
            ++ (⟨(done ++ line.data.drop k).drop (done.length + (e - k))⟩ : String))
          = (⟨(done ++ (replaceBracketsInToken brackets2 (strSlice line k e)).data)
                ++ line.data.drop e⟩ : String)
      rw [← strMk_data (replaceBracketsInToken brackets2 (strSlice line k e)), strMk_append,
        strMk_append]
      congr 1
      rw [take_append_self, drop_append_add, List.drop_drop, show k + (e - k) = e by omega]
    · rw [show (replaceBracketsInToken brackets2 (strSlice line k e)).data.length
          = (replaceBracketsInToken brackets2 (strSlice line k e)).length from rfl]
      omega)

theorem strippedStep_fold (brackets2 : Option RichEditBrackets) (line : String)
    (hb : singleCharBrackets brackets2 = true) (toks : List TokenInfo) :
    ∀ (k : Nat) (done : List Char),
      tokensOkB line.length k toks = true →
      toks.foldl (strippedStep brackets2 line)
          (⟨done ++ line.data.drop k⟩, (done.length : Int) - (k : Int))
        = (⟨done ++ ((toks.map (strippedSegment brackets2 line)).map (fun s => s.data)).flatten
              ++ line.data.drop (lastEndFrom k toks)⟩,
           ((done.length : Int)
              + ((((toks.map (strippedSegment brackets2 line)).map (fun s => s.data)).flatten.length : Nat) : Int)
              - ((lastEndFrom k toks : Nat) : Int))) := by
  induction toks with
  | nil =>
    intro k done _
    simp only [List.map_nil, List.flatten_nil, List.append_nil, List.foldl_nil, lastEndFrom,
      List.length_nil]
    rw [Prod.mk.injEq]
    constructor
    · rfl
    · omega
  | cons t ts ih =>
    intro k done hok
    simp only [tokensOkB, Bool.and_eq_true, beq_iff_eq, decide_eq_true_eq] at hok
    obtain ⟨⟨⟨hstart, hke⟩, hel⟩, hrest⟩ := hok
    rw [List.foldl_cons]
    cases htt : t.tokenType with
    | comment =>
      rw [strippedStep_comment brackets2 line done k t.endOffset t htt hstart rfl hke]
      rw [ih t.endOffset done hrest]
      rw [Prod.mk.injEq]
      constructor
      · congr 1
        simp [strippedSegment, htt, lastEndFrom]
      · simp [strippedSegment, htt, lastEndFrom]
    | strTok =>
      rw [strippedStep_stringlike brackets2 line done k t.endOffset t (Or.inl htt) hstart rfl
        hke hel hb]
      rw [show ((done.length
              + (replaceBracketsInToken brackets2 (strSlice line k t.endOffset)).data.length : Nat) : Int)
          = (((done ++ (replaceBracketsInToken brackets2 (strSlice line k t.endOffset)).data).length : Nat) : Int)
        by simp]
      rw [ih t.endOffset (done ++ (replaceBracketsInToken brackets2 (strSlice line k t.endOffset)).data)
        hrest]
      rw [Prod.mk.injEq]
      constructor
      · congr 1
        simp [strippedSegment, htt, hstart, lastEndFrom, List.append_assoc]
      · simp [strippedSegment, htt, hstart, lastEndFrom, List.length_append]
        omega
    | regEx =>
      rw [strippedStep_stringlike brackets2 line done k t.endOffset t (Or.inr htt) hstart rfl
        hke hel hb]
      rw [show ((done.length
              + (replaceBracketsInToken brackets2 (strSlice line k t.endOffset)).data.length : Nat) : Int)
          = (((done ++ (replaceBracketsInToken brackets2 (strSlice line k t.endOffset)).data).length : Nat) : Int)
        by simp]
      rw [ih t.endOffset (done ++ (replaceBracketsInToken brackets2 (strSlice line k t.endOffset)).data)
        hrest]
      rw [Prod.mk.injEq]
      constructor
      · congr 1
        simp [strippedSegment, htt, hstart, lastEndFrom, List.append_assoc]
      · simp [strippedSegment, htt, hstart, lastEndFrom, List.length_append]
        omega
    | other =>
      rw [strippedStep_other brackets2 line _ t htt]
      have hslicelen : (strSlice line k t.endOffset).data.length = t.endOffset - k := by
        show ((line.data.drop k).take (t.endOffset - k)).length = t.endOffset - k
        rw [string_length_data] at hel
        simp only [List.length_take, List.length_drop]
        omega
      have hstr : (⟨done ++ line.data.drop k⟩ : String)
          = ⟨(done ++ (strSlice line k t.endOffset).data) ++ line.data.drop t.endOffset⟩ := by
        congr 1
        rw [List.append_assoc]
        congr 1
        exact drop_k_split line.data k t.endOffset hke
      have hofs : ((done.length : Int) - (k : Int))
          = (((done ++ (strSlice line k t.endOffset).data).length : Nat) : Int)
              - (t.endOffset : Int) := by
        simp only [List.length_append, hslicelen]
        omega
      rw [hstr, hofs]
      rw [ih t.endOffset (done ++ (strSlice line k t.endOffset).data) hrest]
      rw [Prod.mk.injEq]
      constructor
      · congr 1
        simp [strippedSegment, htt, hstart, lastEndFrom, List.append_assoc]
      · simp [strippedSegment, htt, hstart, lastEndFrom, List.length_append]
        omega

/-- C10 as frozen is false on the code: with a close-bracket text of length 2
(`ab`), the string-token branch updates `offset` before splicing `res` back
together, so a character of the token is duplicated and the character after
the token (`)`) is deleted: the function returns `"xx_de"` where the claimed
behaviour gives `"x_)de"`. -/
theorem C10_strippedLine_counterexample :
    tokensOkB c10line.length 0 c10toks = true
    ∧ getStrippedLineForLineAndTokens c10lcs ("L") c10line ⟨c10line, c10toks⟩ = "xx_de"
    ∧ strippedLineSpec ((c10lcs.getLanguageConfiguration ("L")).brackets) c10line c10toks
        = "x_)de"
    ∧ getStrippedLineForLineAndTokens c10lcs ("L") c10line ⟨c10line, c10toks⟩
        ≠ strippedLineSpec ((c10lcs.getLanguageConfiguration ("L")).brackets) c10line c10toks := by
  exact ⟨by decide, by decide, by decide, by decide⟩

/-- C10 (amended): for every line and a well-formed token list (contiguous,
in bounds), provided every configured bracket text is a single character,
getStrippedLineForLineAndTokens removes the text of every Comment token and,
inside every String or RegEx token, replaces only the first occurrence of each
configured open-bracket text and close-bracket text with an underscore (later
occurrences unchanged), while all other characters are preserved in their
original order — i.e. the result is the concatenation of the per-token
stripped segments followed by the text after the last token. -/
theorem C10_strippedLine_amended (lcs : LangConfigService) (languageId : String)
    (line : String) (tokens : LineTokens)
    (hok : tokensOkB line.length 0 tokens.toks = true)
    (hb : singleCharBrackets ((lcs.getLanguageConfiguration languageId).brackets) = true) :
    getStrippedLineForLineAndTokens lcs languageId line tokens
      = strippedLineSpec ((lcs.getLanguageConfiguration languageId).brackets) line
          tokens.toks := by
  unfold getStrippedLineForLineAndTokens strippedLineSpec
  dsimp only
  have h := strippedStep_fold ((lcs.getLanguageConfiguration languageId).brackets) line hb
    tokens.toks 0 [] hok
  simp only [List.nil_append, List.drop_zero, List.length_nil, Nat.cast_zero, sub_zero,
    strMk_data] at h
  rw [h]

theorem C10_strippedLine_amended_witness :
    getStrippedLineForLineAndTokens lcsSingleW ("L") ("a(b)c") ⟨"a(b)c", toksSingleW⟩
      = strippedLineSpec ((lcsSingleW.getLanguageConfiguration ("L")).brackets) ("a(b)c")
          toksSingleW :=
  C10_strippedLine_amended lcsSingleW ("L") ("a(b)c") ⟨"a(b)c", toksSingleW⟩
    (by decide) (by decide)

end VSCodeSpec
